import Mathlib

/-!
# Verification of the `bulletproofs_gadgets` R1CS gadget library

This file gives a shallow embedding of the constraint-system gadgets of the
`bulletproofs_gadgets` crate and proves, or refutes, the specification claims
about them.

The embedding models the `bulletproofs::r1cs` constraint system as a trace of
emitted operations (multiplication gates, free multiplier allocations, linear
constraints) together with counters for committed variables and multiplication
gates, exactly as the dalek bulletproofs API allocates them.  Linear
combinations are formal term lists over the wire variables, mirroring
`bulletproofs::r1cs::LinearCombination` (addition is term-list concatenation,
subtraction concatenates the negated terms; no simplification happens).
Witness assignments are modelled separately, and a satisfaction relation says
when an assignment satisfies the emitted gates and constraints.

The circuit field of the crate is the curve25519 scalar field
`ZMod (2^252 + 27742317777372353535851937790883648493)`; definitions are kept
polymorphic over a commutative ring `F` (the gadget code only uses ring
operations on coefficients) and concrete evaluations instantiate `F` at that
modulus.
-/

set_option maxRecDepth 20000

namespace BPG

/-- The order of the curve25519 Ristretto group: the modulus of the scalar
field `curve25519_dalek::scalar::Scalar` over which all circuit linear
combinations are built. -/
def ell : ℕ := 2 ^ 252 + 27742317777372353535851937790883648493

/-- The circuit field of the crate. -/
abbrev Fp := ZMod ell

/-- Wires of the bulletproofs rank-1 constraint system: high-level committed
variables, the three wires of each multiplication gate, and the constant-one
variable.  Mirrors `bulletproofs::r1cs::Variable`. -/
inductive BPVar : Type
  | committed (n : ℕ)
  | mulLeft (n : ℕ)
  | mulRight (n : ℕ)
  | mulOut (n : ℕ)
  | one
  deriving DecidableEq

/-- A formal linear combination of wires, as in
`bulletproofs::r1cs::LinearCombination`: a list of (variable, coefficient)
terms. -/
abbrev LinComb (F : Type) := List (BPVar × F)

variable {F : Type}

/-- `LinearCombination::from(Variable)`. -/
def lcVar [CommRing F] (v : BPVar) : LinComb F := [(v, 1)]

/-- `LinearCombination::from(Scalar)`: a constant, carried on the `One`
variable. -/
def lcConst (s : F) : LinComb F := [(BPVar.one, s)]

/-- `Add for LinearCombination`: concatenation of the term lists. -/
def lcAdd (l r : LinComb F) : LinComb F := l ++ r

/-- `Neg for LinearCombination`: negate every coefficient. -/
def lcNeg [CommRing F] (l : LinComb F) : LinComb F :=
  l.map fun t => (t.1, -t.2)

/-- `Sub for LinearCombination`: append the negated terms of the subtrahend. -/
def lcSub [CommRing F] (l r : LinComb F) : LinComb F := l ++ lcNeg r

/-- One operation recorded by the constraint system, in emission order:
a multiplication gate with its left/right input linear combinations
(`ConstraintSystem::multiply`), a free multiplier allocation
(`ConstraintSystem::allocate_multiplier`; the optional witness assignment is
prover data, not part of the constraint structure), or a linear constraint
(`ConstraintSystem::constrain`). -/
inductive CSOp (F : Type) : Type
  | mulOp (index : ℕ) (left right : LinComb F)
  | allocMulOp (index : ℕ)
  | constrainOp (lc : LinComb F)
  deriving DecidableEq

/-- The state of the constraint system while a circuit is being built:
how many high-level variables have been committed, how many multiplication
gates allocated, and the list of operations emitted so far (oldest first). -/
structure CSState (F : Type) : Type where
  numCommitted : ℕ
  numMuls : ℕ
  ops : List (CSOp F)
  deriving DecidableEq

/-- A fresh constraint system. -/
def CSState.init : CSState F := ⟨0, 0, []⟩

/-- `ConstraintSystem::multiply`: allocates one multiplication gate whose left
and right input wires are tied to the given linear combinations; returns the
gate's (left, right, output) wires. -/
def multiply (l r : LinComb F) (s : CSState F) :
    (BPVar × BPVar × BPVar) × CSState F :=
  ((BPVar.mulLeft s.numMuls, BPVar.mulRight s.numMuls, BPVar.mulOut s.numMuls),
    ⟨s.numCommitted, s.numMuls + 1, s.ops ++ [CSOp.mulOp s.numMuls l r]⟩)

/-- `ConstraintSystem::allocate_multiplier`: allocates one multiplication gate
with free input wires (the optional prover-side assignment is witness data and
does not enter the constraint structure). -/
def allocate_multiplier (s : CSState F) :
    (BPVar × BPVar × BPVar) × CSState F :=
  ((BPVar.mulLeft s.numMuls, BPVar.mulRight s.numMuls, BPVar.mulOut s.numMuls),
    ⟨s.numCommitted, s.numMuls + 1, s.ops ++ [CSOp.allocMulOp s.numMuls]⟩)

/-- `ConstraintSystem::constrain`: asserts that a linear combination vanishes. -/
def constrain (lc : LinComb F) (s : CSState F) : CSState F :=
  ⟨s.numCommitted, s.numMuls, s.ops ++ [CSOp.constrainOp lc]⟩

/-- `Prover::commit` / `Verifier::commit`: allocates a high-level committed
variable.  The Pedersen commitment value and the blinding factor are opaque
external data carrying no constraint information, so only the wire is
modelled. -/
def commitVar (s : CSState F) : BPVar × CSState F :=
  (BPVar.committed s.numCommitted, ⟨s.numCommitted + 1, s.numMuls, s.ops⟩)

/-! ## Witness assignments and satisfaction -/

/-- A witness assignment: one field value for every committed variable and for
every left/right/output multiplier wire. -/
structure BPAssignment (F : Type) : Type where
  committed : ℕ → F
  mulL : ℕ → F
  mulR : ℕ → F
  mulO : ℕ → F

/-- The value an assignment gives to a single wire. -/
def varValue [CommRing F] (asg : BPAssignment F) : BPVar → F
  | BPVar.committed n => asg.committed n
  | BPVar.mulLeft n => asg.mulL n
  | BPVar.mulRight n => asg.mulR n
  | BPVar.mulOut n => asg.mulO n
  | BPVar.one => 1

/-- The value of a linear combination under an assignment: the sum of
coefficient times wire value over its terms. -/
def evalLC [CommRing F] (asg : BPAssignment F) (lc : LinComb F) : F :=
  (lc.map fun t => t.2 * varValue asg t.1).sum

/-- When an assignment satisfies one recorded operation: a multiplication gate
ties its left and right wires to the given linear combinations and its output
to their product; a free multiplier only ties output to product; a constraint
requires the linear combination to vanish. -/
def opHolds [CommRing F] (asg : BPAssignment F) : CSOp F → Prop
  | CSOp.mulOp i l r =>
      asg.mulL i = evalLC asg l ∧ asg.mulR i = evalLC asg r ∧
        asg.mulO i = asg.mulL i * asg.mulR i
  | CSOp.allocMulOp i => asg.mulO i = asg.mulL i * asg.mulR i
  | CSOp.constrainOp lc => evalLC asg lc = 0

instance [CommRing F] [DecidableEq F] (asg : BPAssignment F) (op : CSOp F) :
    Decidable (opHolds asg op) := by
  cases op <;> simp only [opHolds] <;> infer_instance

/-- An assignment satisfies a trace when it satisfies every operation in it. -/
def Satisfies [CommRing F] (asg : BPAssignment F) (ops : List (CSOp F)) : Prop :=
  ∀ op ∈ ops, opHolds asg op

instance [CommRing F] [DecidableEq F] (asg : BPAssignment F) (ops : List (CSOp F)) :
    Decidable (Satisfies asg ops) :=
  List.decidableBAll (opHolds asg) ops

/-! ## Point types -/

/-- A concrete Twisted Edwards point in extended coordinates, as supplied by
zerocaf (`zerocaf::ristretto::RistrettoPoint` / `zerocaf::edwards::EdwardsPoint`):
a 4-tuple of field elements. -/
structure SonnyPoint (F : Type) : Type where
  X : F
  Y : F
  Z : F
  T : F
  deriving DecidableEq

/-- `ristretto_point.rs::SonnyRistrettoPointGadget`: a circuit point whose four
extended coordinates are symbolic linear combinations over circuit wires. -/
structure SonnyRistrettoPointGadget (F : Type) : Type where
  X : LinComb F
  Y : LinComb F
  Z : LinComb F
  T : LinComb F
  deriving DecidableEq

/-- `gadgets/point/edwards_point.rs::SonnyEdwardsPointGadget`. -/
structure SonnyEdwardsPointGadget (F : Type) : Type where
  X : LinComb F
  Y : LinComb F
  Z : LinComb F
  T : LinComb F
  deriving DecidableEq

/-! ## Scalar gadgets -/

/-- `util.rs::nonzero_gadget` (the same code is duplicated in
`gadgets/scalar.rs`): allocate a multiplier whose left wire is the prover-side
inverse witness, multiply it with the input linear combination and constrain
the product to equal one.

On the prover side (`var_assigment = some q`) the source computes zerocaf's
`FieldElement::inverse` on `q` before allocating; inverting zero aborts the
process (the repository's own test in `gadgets/scalar.rs` documents that the
zero round trip "causes a `panic!`"), which is modelled by returning `none`.
The inverse value itself is witness data and does not appear in the recorded
constraint structure. -/
def nonzero_gadget [CommRing F] [DecidableEq F] (var : LinComb F)
    (var_assigment : Option F) (s : CSState F) : Option (CSState F) :=
  match var_assigment with
  | some q =>
      if q = 0 then none
      else
        let (t, s1) := allocate_multiplier s
        let (t2, s2) := multiply (lcVar t.1) var s1
        some (constrain (lcSub (lcVar t2.2.2) (lcConst 1)) s2)
  | none =>
      let (t, s1) := allocate_multiplier s
      let (t2, s2) := multiply (lcVar t.1) var s1
      some (constrain (lcSub (lcVar t2.2.2) (lcConst 1)) s2)

/-- `gadgets/boolean.rs::binary_constrain_gadget` (the same code is duplicated
in `util.rs`): constrain `(1 - a) * a = 0`, with a pinning constraint re-tying
`1 - a` to its defining linear combination. -/
def binary_constrain_gadget [CommRing F] (bit : BPVar) (s : CSState F) :
    CSState F :=
  let one : LinComb F := lcConst 1
  let one_min_bit := lcSub one (lcVar bit)
  let s1 := constrain (lcAdd (lcSub one_min_bit one) (lcVar bit)) s
  let (t, s2) := multiply one_min_bit (lcVar bit) s1
  constrain (lcVar t.2.2) s2

/-- `gadgets/cond_select/binary.rs::binary_constrain_gadget`: the same boolean
constraint without the pinning step. -/
def binary_constrain_gadget_cs [CommRing F] (bit : BPVar) (s : CSState F) :
    CSState F :=
  let one : LinComb F := lcConst 1
  let one_min_bit := lcSub one (lcVar bit)
  let (t, s1) := multiply one_min_bit (lcVar bit) s
  constrain (lcVar t.2.2) s1

/-! ## The conditional-select gadgets -/

/-- `gadgets/cond_select/cond_select.rs::conditional_select_gadget`: boolean-
constrains the bit, multiplies the X and Z coordinates by the bit, and passes
the Y and T coordinates through pinning multiplications by one, returning the
four output wires `(new_x, old_y, new_z, old_t)`. -/
def conditional_select_gadget [CommRing F] (bit : BPVar)
    (point : LinComb F × LinComb F × LinComb F × LinComb F) (s : CSState F) :
    (BPVar × BPVar × BPVar × BPVar) × CSState F :=
  let s0 := binary_constrain_gadget_cs bit s
  let (tx, s1) := multiply point.1 (lcVar bit) s0
  let (tz, s2) := multiply point.2.2.1 (lcVar bit) s1
  let (ty, s3) := multiply point.2.1 (lcConst 1) s2
  let (tt, s4) := multiply point.2.2.2 (lcConst 1) s3
  ((tx.2.2, ty.1, tz.2.2, tt.1), s4)

/-- `SonnyRistrettoPointGadget::conditionally_select` (the identically written
method on `SonnyEdwardsPointGadget` in `gadgets/point/edwards_point.rs` is the
one the scalar-multiplication ladder calls): `x' = x * bit`,
`y' = bit * y + (1 - bit)`, `z' = bit * z + (1 - bit)`, `t' = t * bit`, where
the `bit` handle is rebound to the fresh gate wire at every step exactly as in
the source. -/
def SonnyRistrettoPointGadget.conditionally_select [CommRing F]
    (self : SonnyRistrettoPointGadget F) (bit : LinComb F) (s : CSState F) :
    SonnyRistrettoPointGadget F × CSState F :=
  let one : LinComb F := lcConst 1
  let (tx, s1) := multiply self.X bit s
  let bit1 := tx.2.1
  let (ty, s2) := multiply (lcVar bit1) self.Y s1
  let bit2 := ty.1
  let y_prime := lcSub (lcAdd (lcVar ty.2.2) one) (lcVar bit2)
  let s3 := constrain (lcAdd (lcSub (lcSub y_prime (lcVar ty.2.2)) one) (lcVar bit2)) s2
  let (tz, s4) := multiply (lcVar bit2) self.Z s3
  let bit3 := tz.1
  let z_prime := lcSub (lcAdd (lcVar tz.2.2) one) (lcVar bit3)
  let s5 := constrain (lcAdd (lcSub (lcSub z_prime (lcVar tz.2.2)) one) (lcVar bit3)) s4
  let (tt, s6) := multiply self.T (lcVar bit3) s5
  (⟨lcVar tx.2.2, y_prime, z_prime, lcVar tt.2.2⟩, s6)

/-! ## The point group-law gadgets -/

/-- `SonnyRistrettoPointGadget::add` in `ristretto_point.rs`.  The curve
constants `a` and `d` are read by the source from `zerocaf::constants`
(`EDWARDS_A`, `EDWARDS_D`) and appear here as parameters.  The multiplication
gates and pinning constraints are emitted in exactly the source order, with
the wire rebindings of the last four gates (`E`, `F`, `G`, `H` become gate
wires) reproduced faithfully. -/
def SonnyRistrettoPointGadget.add [CommRing F] (a d : F)
    (self other : SonnyRistrettoPointGadget F) (s : CSState F) :
    SonnyRistrettoPointGadget F × CSState F :=
  let (tA, s1) := multiply self.X other.X s
  let A := tA.2.2
  let (tB, s2) := multiply self.Y other.Y s1
  let B := tB.2.2
  let (tpt, s3) := multiply self.T other.T s2
  let (tC, s4) := multiply (lcVar tpt.2.2) (lcConst d) s3
  let C := tC.2.2
  let (tD, s5) := multiply self.Z other.Z s4
  let D := tD.2.2
  let E1 := lcAdd self.X self.Y
  let s6 := constrain (lcSub (lcSub E1 self.X) self.Y) s5
  let E2 := lcAdd other.X other.Y
  let s7 := constrain (lcSub (lcSub E2 other.X) other.Y) s6
  let (tE12, s8) := multiply E1 E2 s7
  let E12 := tE12.2.2
  let (taA, s9) := multiply (lcConst a) (lcVar A) s8
  let aA := taA.2.2
  let (tbB, s10) := multiply (lcConst a) (lcVar B) s9
  let bB := tbB.2.2
  let E := lcAdd (lcAdd (lcVar aA) (lcVar bB)) (lcVar E12)
  let s11 := constrain (lcSub (lcSub (lcSub E (lcVar aA)) (lcVar bB)) (lcVar E12)) s10
  let Flc := lcSub (lcVar D) (lcVar C)
  let s12 := constrain (lcAdd (lcSub Flc (lcVar D)) (lcVar C)) s11
  let Glc := lcAdd (lcVar D) (lcVar C)
  let s13 := constrain (lcSub (lcSub Glc (lcVar D)) (lcVar C)) s12
  let Hlc := lcAdd (lcVar B) (lcVar A)
  let s14 := constrain (lcSub (lcSub Hlc (lcVar B)) (lcVar A)) s13
  let (tX, s15) := multiply E Flc s14
  let (tY, s16) := multiply Glc Hlc s15
  let (tZ, s17) := multiply (lcVar tX.2.1) (lcVar tY.1) s16
  let (tT, s18) := multiply (lcVar tX.1) (lcVar tY.2.1) s17
  (⟨lcVar tX.2.2, lcVar tY.2.2, lcVar tZ.2.2, lcVar tT.2.2⟩, s18)

/-- `SonnyRistrettoPointGadget::double`: implemented in the source as addition
of the point with itself. -/
def SonnyRistrettoPointGadget.double [CommRing F] (a d : F)
    (self : SonnyRistrettoPointGadget F) (s : CSState F) :
    SonnyRistrettoPointGadget F × CSState F :=
  SonnyRistrettoPointGadget.add a d self self s

/-- `SonnyRistrettoPointGadget::equals`: constrains `X1*Y2 - Y1*X2 = 0`. -/
def SonnyRistrettoPointGadget.equals [CommRing F]
    (self : SonnyRistrettoPointGadget F) (other : SonnyRistrettoPointGadget F)
    (s : CSState F) : CSState F :=
  let (t1, s1) := multiply self.X other.Y s
  let (t2, s2) := multiply self.Y other.X s1
  constrain (lcSub (lcVar t1.2.2) (lcVar t2.2.2)) s2

/-- `SonnyEdwardsPointGadget::equal` in `gadgets/point/edwards_point.rs` (the
copy in `gadgets/edwards_point/edwards_point.rs` is identical): constrains
`X1*Z2 - X2*Z1 = 0` and `Y1*Z2 - Y2*Z1 = 0`, the second pair of products
taking the pinned `Z` wires of the first pair as inputs. -/
def SonnyEdwardsPointGadget.equal [CommRing F]
    (self : SonnyEdwardsPointGadget F) (other : SonnyEdwardsPointGadget F)
    (s : CSState F) : CSState F :=
  let (t1, s1) := multiply self.X other.Z s
  let (t2, s2) := multiply other.X self.Z s1
  let s3 := constrain (lcSub (lcVar t1.2.2) (lcVar t2.2.2)) s2
  let (t3, s4) := multiply self.Y (lcVar t1.2.1) s3
  let (t4, s5) := multiply other.Y (lcVar t2.2.1) s4
  constrain (lcSub (lcVar t3.2.2) (lcVar t4.2.2)) s5

/-! ## The subgroup-membership gadget and the point constructors -/

/-- `SonnyRistrettoPointGadget::ristretto_gadget`: doubles the circuit point
three times and constrains `8P` to differ from the identity via the non-zero
gadget applied to the `X` coordinate and to `Y - Z`.  `pdouble` is zerocaf's
value-level point doubling (`zerocaf::traits::ops::Double`, external to this
crate), which the prover branch uses to derive the witness values for `8P`.
The prover branch (`point_assign = some _`) and the verifier branch (`none`)
are transcribed exactly as written, including the differing sign on the
pinning constraint for `y_m_z`. -/
def SonnyRistrettoPointGadget.ristretto_gadget [CommRing F] [DecidableEq F]
    (a d : F) (pdouble : SonnyPoint F → SonnyPoint F)
    (self : SonnyRistrettoPointGadget F) (point_assign : Option (SonnyPoint F))
    (s : CSState F) : Option (CSState F) :=
  let (two_p, s1) := SonnyRistrettoPointGadget.double a d self s
  let (four_p, s2) := SonnyRistrettoPointGadget.double a d two_p s1
  let (eight_p, s3) := SonnyRistrettoPointGadget.double a d four_p s2
  match point_assign with
  | some point =>
      let point_8 := pdouble (pdouble (pdouble point))
      (nonzero_gadget eight_p.X (some point_8.X) s3).bind fun s4 =>
        let y_m_z := lcSub eight_p.Y eight_p.Z
        let s5 := constrain (lcSub (lcSub eight_p.Y eight_p.Z) y_m_z) s4
        nonzero_gadget y_m_z (some (point_8.Y - point_8.Z)) s5
  | none =>
      (nonzero_gadget eight_p.X none s3).bind fun s4 =>
        let y_m_z := lcSub eight_p.Y eight_p.Z
        let s5 := constrain (lcAdd (lcSub eight_p.Y eight_p.Z) y_m_z) s4
        nonzero_gadget y_m_z none s5

/-- `SonnyRistrettoPointGadget::from_point`: builds the gadget from the
concrete coordinates as constant linear combinations and runs the
subgroup-membership gadget with the prover-side assignment. -/
def SonnyRistrettoPointGadget.from_point [CommRing F] [DecidableEq F]
    (a d : F) (pdouble : SonnyPoint F → SonnyPoint F) (point : SonnyPoint F)
    (s : CSState F) : Option (SonnyRistrettoPointGadget F × CSState F) :=
  let gadget_p : SonnyRistrettoPointGadget F :=
    ⟨lcConst point.X, lcConst point.Y, lcConst point.Z, lcConst point.T⟩
  (SonnyRistrettoPointGadget.ristretto_gadget a d pdouble gadget_p (some point) s).map
    fun s1 => (gadget_p, s1)

/-- `SonnyRistrettoPointGadget::from_lcs`: `assert!(lcs.len() == 4)` (a failed
assertion, i.e. a panic, is modelled as `none`), then build the gadget from
the four linear combinations and run the subgroup-membership gadget with no
assignment.  The verifier branch never consults the point-doubling function,
so the identity is passed for it. -/
def SonnyRistrettoPointGadget.from_lcs [CommRing F] [DecidableEq F] (a d : F)
    (lcs : List (LinComb F)) (s : CSState F) :
    Option (SonnyRistrettoPointGadget F × CSState F) :=
  match lcs with
  | [l0, l1, l2, l3] =>
      let gadget : SonnyRistrettoPointGadget F := ⟨l0, l1, l2, l3⟩
      (SonnyRistrettoPointGadget.ristretto_gadget a d (fun p => p) gadget none s).map
        fun s1 => (gadget, s1)
  | _ => none

/-- `util.rs::prover_commit_to_sonny_point`: Pedersen-commits the four
coordinates, builds the gadget on the committed wires, and runs the
subgroup-membership gadget with the prover-side assignment before returning. -/
def prover_commit_to_sonny_point [CommRing F] [DecidableEq F] (a d : F)
    (pdouble : SonnyPoint F → SonnyPoint F) (p : SonnyPoint F) (s : CSState F) :
    Option (SonnyRistrettoPointGadget F × CSState F) :=
  let (v0, s1) := commitVar s
  let (v1, s2) := commitVar s1
  let (v2, s3) := commitVar s2
  let (v3, s4) := commitVar s3
  let gadget_p : SonnyRistrettoPointGadget F :=
    ⟨lcVar v0, lcVar v1, lcVar v2, lcVar v3⟩
  (SonnyRistrettoPointGadget.ristretto_gadget a d pdouble gadget_p (some p) s4).map
    fun s5 => (gadget_p, s5)

/-- `util.rs::verifier_commit_to_sonny_point`:
`assert_eq!(commitments.len(), 4)` (modelled as `none` on failure), then
commit the four wires and delegate to `from_lcs`.  Commitment values are
opaque byte strings whose content never enters the constraint system, so they
are modelled as `Unit`. -/
def verifier_commit_to_sonny_point [CommRing F] [DecidableEq F] (a d : F)
    (commitments : List Unit) (s : CSState F) :
    Option (SonnyRistrettoPointGadget F × CSState F) :=
  if commitments.length = 4 then
    let (v0, s1) := commitVar s
    let (v1, s2) := commitVar s1
    let (v2, s3) := commitVar s2
    let (v3, s4) := commitVar s3
    SonnyRistrettoPointGadget.from_lcs a d [lcVar v0, lcVar v1, lcVar v2, lcVar v3] s4
  else none

/-- `SonnyEdwardsPointGadget::prover_commit_to_sonny_edwards_point` in
`gadgets/point/edwards_point.rs`: Pedersen-commits the four coordinates and
returns the gadget built on the committed wires.  No constraint of any kind is
added. -/
def prover_commit_to_sonny_edwards_point [CommRing F] (p : SonnyPoint F)
    (s : CSState F) : SonnyEdwardsPointGadget F × CSState F :=
  let (v0, s1) := commitVar s
  let (v1, s2) := commitVar s1
  let (v2, s3) := commitVar s2
  let (v3, s4) := commitVar s3
  (⟨lcVar v0, lcVar v1, lcVar v2, lcVar v3⟩, s4)

/-- `SonnyEdwardsPointGadget::verifier_commit_to_sonny_edwards_point`:
`assert_eq!(commitments.len(), 4)` (modelled as `none` on failure), then
commit the four wires and return the gadget.  No constraint is added. -/
def verifier_commit_to_sonny_edwards_point [CommRing F]
    (commitments : List Unit) (s : CSState F) :
    Option (SonnyEdwardsPointGadget F × CSState F) :=
  if commitments.length = 4 then
    let (v0, s1) := commitVar s
    let (v1, s2) := commitVar s1
    let (v2, s3) := commitVar s2
    let (v3, s4) := commitVar s3
    some (⟨lcVar v0, lcVar v1, lcVar v2, lcVar v3⟩, s4)
  else none

/-! ## The standalone point-addition gadget -/

/-- `gadgets/point_addition/add.rs::point_addition_gadget`: the unified
extended-coordinates addition circuit over caller-supplied linear combinations
for the two input points and for the curve constants (note the source's
argument order `(d, a)`).  It emits twelve multiplication gates and no
constraints, and returns the four output wires. -/
def point_addition_gadget [CommRing F]
    (p1 p2 : LinComb F × LinComb F × LinComb F × LinComb F)
    (d a : LinComb F) (s : CSState F) :
    (BPVar × BPVar × BPVar × BPVar) × CSState F :=
  let (tA, s1) := multiply p1.1 p2.1 s
  let (tB, s2) := multiply p1.2.1 p2.2.1 s1
  let (tpt, s3) := multiply p1.2.2.2 p2.2.2.2 s2
  let (tC, s4) := multiply (lcVar tpt.2.2) d s3
  let (tD, s5) := multiply p1.2.2.1 p2.2.2.1 s4
  let E1 := lcAdd p1.1 p1.2.1
  let E2 := lcAdd p2.1 p2.2.1
  let (tE12, s6) := multiply E1 E2 s5
  let (tma, s7) := multiply a (lcVar tA.2.2) s6
  let (tmb, s8) := multiply a (lcVar tB.2.2) s7
  let E := lcAdd (lcAdd (lcVar tma.2.2) (lcVar tmb.2.2)) (lcVar tE12.2.2)
  let Flc := lcSub (lcVar tD.2.2) (lcVar tC.2.2)
  let Glc := lcAdd (lcVar tD.2.2) (lcVar tC.2.2)
  let Hlc := lcAdd (lcVar tB.2.2) (lcVar tA.2.2)
  let (tX, s9) := multiply E Flc s8
  let (tY, s10) := multiply Glc Hlc s9
  let (tZ, s11) := multiply Flc Glc s10
  let (tT, s12) := multiply E Hlc s11
  ((tX.2.2, tY.2.2, tZ.2.2, tT.2.2), s12)

/-! ## The scalar-multiplication ladder -/

/-- The natural number represented by a bit vector with the least-significant
bit first — the order in which zerocaf's `Scalar::into_bits` lays out the
scalar the callers of the ladder pass in. -/
def natOfBits : List Bool → ℕ
  | [] => 0
  | b :: bs => (cond b 1 0) + 2 * natOfBits bs

/-! ## Expected operation lists

Explicit descriptions, with hand-computed gate indices, of the operation
sequences the gadgets are supposed to emit.  These are written out
independently of the gadget definitions so that theorems equating a gadget's
trace with its expected list have genuine content (gate-index bookkeeping and
block structure). -/

/-- The `E` linear combination of the addition gadget when its first gate has
index `k`: `aA + bB + E12`. -/
def addE [CommRing F] (k : ℕ) : LinComb F :=
  lcAdd (lcAdd (lcVar (BPVar.mulOut (k + 6))) (lcVar (BPVar.mulOut (k + 7))))
    (lcVar (BPVar.mulOut (k + 5)))

/-- The `F` linear combination of the addition gadget: `D - C`. -/
def addF [CommRing F] (k : ℕ) : LinComb F :=
  lcSub (lcVar (BPVar.mulOut (k + 4))) (lcVar (BPVar.mulOut (k + 3)))

/-- The `G` linear combination of the addition gadget: `D + C`. -/
def addG [CommRing F] (k : ℕ) : LinComb F :=
  lcAdd (lcVar (BPVar.mulOut (k + 4))) (lcVar (BPVar.mulOut (k + 3)))

/-- The `H` linear combination of the addition gadget: `B + A`. -/
def addH [CommRing F] (k : ℕ) : LinComb F :=
  lcAdd (lcVar (BPVar.mulOut (k + 1))) (lcVar (BPVar.mulOut k))

/-- The eighteen operations `SonnyRistrettoPointGadget::add` emits when the
index of its first multiplication gate is `k`: the five input products, the
two input-sum pinning constraints, the three `E` products, the four pinning
constraints for `E`, `F`, `G`, `H`, and the four output products. -/
def addOps [CommRing F] (a d : F) (p q : SonnyRistrettoPointGadget F) (k : ℕ) :
    List (CSOp F) :=
  [CSOp.mulOp k p.X q.X,
   CSOp.mulOp (k + 1) p.Y q.Y,
   CSOp.mulOp (k + 2) p.T q.T,
   CSOp.mulOp (k + 3) (lcVar (BPVar.mulOut (k + 2))) (lcConst d),
   CSOp.mulOp (k + 4) p.Z q.Z,
   CSOp.constrainOp (lcSub (lcSub (lcAdd p.X p.Y) p.X) p.Y),
   CSOp.constrainOp (lcSub (lcSub (lcAdd q.X q.Y) q.X) q.Y),
   CSOp.mulOp (k + 5) (lcAdd p.X p.Y) (lcAdd q.X q.Y),
   CSOp.mulOp (k + 6) (lcConst a) (lcVar (BPVar.mulOut k)),
   CSOp.mulOp (k + 7) (lcConst a) (lcVar (BPVar.mulOut (k + 1))),
   CSOp.constrainOp (lcSub (lcSub (lcSub (addE k) (lcVar (BPVar.mulOut (k + 6))))
     (lcVar (BPVar.mulOut (k + 7)))) (lcVar (BPVar.mulOut (k + 5)))),
   CSOp.constrainOp (lcAdd (lcSub (addF k) (lcVar (BPVar.mulOut (k + 4))))
     (lcVar (BPVar.mulOut (k + 3)))),
   CSOp.constrainOp (lcSub (lcSub (addG k) (lcVar (BPVar.mulOut (k + 4))))
     (lcVar (BPVar.mulOut (k + 3)))),
   CSOp.constrainOp (lcSub (lcSub (addH k) (lcVar (BPVar.mulOut (k + 1))))
     (lcVar (BPVar.mulOut k))),
   CSOp.mulOp (k + 8) (addE k) (addF k),
   CSOp.mulOp (k + 9) (addG k) (addH k),
   CSOp.mulOp (k + 10) (lcVar (BPVar.mulRight (k + 8))) (lcVar (BPVar.mulLeft (k + 9))),
   CSOp.mulOp (k + 11) (lcVar (BPVar.mulLeft (k + 8))) (lcVar (BPVar.mulRight (k + 9)))]

/-- The output circuit point of the addition gadget whose first gate has index
`k`: the four output wires of its last four gates. -/
def addResult [CommRing F] (k : ℕ) : SonnyRistrettoPointGadget F :=
  ⟨lcVar (BPVar.mulOut (k + 8)), lcVar (BPVar.mulOut (k + 9)),
   lcVar (BPVar.mulOut (k + 10)), lcVar (BPVar.mulOut (k + 11))⟩

/-- The operations one doubling (addition of a point with itself) emits. -/
def doubleOps [CommRing F] (a d : F) (p : SonnyRistrettoPointGadget F) (k : ℕ) :
    List (CSOp F) :=
  addOps a d p p k

/-- The three operations the non-zero gadget emits when its free multiplier
gets index `k`: the allocation, the product of the inverse wire with the input
linear combination, and the constraint tying that product to one. -/
def nonzeroOps [CommRing F] (v : LinComb F) (k : ℕ) : List (CSOp F) :=
  [CSOp.allocMulOp k,
   CSOp.mulOp (k + 1) (lcVar (BPVar.mulLeft k)) v,
   CSOp.constrainOp (lcSub (lcVar (BPVar.mulOut (k + 1))) (lcConst 1))]


/-! ## Concrete runs and assignments for evaluation -/

/-- The conditional-select gadget of `cond_select.rs` run over the crate's
field on a committed bit wire (variable 0) and a committed point
(variables 1 to 4). -/
def condSelRun : (BPVar × BPVar × BPVar × BPVar) × CSState Fp :=
  conditional_select_gadget (BPVar.committed 0)
    (lcVar (BPVar.committed 1), lcVar (BPVar.committed 2),
     lcVar (BPVar.committed 3), lcVar (BPVar.committed 4)) CSState.init

/-- A witness assignment for `condSelRun` with bit value `0` and point
`(1, 2, 3, 4)`: every gate of the gadget is given its forced value. -/
def condSelAsg : BPAssignment Fp :=
  ⟨fun n => [0, 1, 2, 3, 4].getD n 0,
   fun n => [1, 1, 3, 2, 4].getD n 0,
   fun n => [0, 0, 0, 1, 1].getD n 0,
   fun n => [0, 0, 0, 2, 4].getD n 0⟩

/-- The standalone point-addition gadget run on two committed points
(variables 0 to 3 and 4 to 7) with the curve constants supplied as constant
linear combinations, from a fresh constraint system. -/
def pointAddRun [CommRing F] (aV dV : F) :
    (BPVar × BPVar × BPVar × BPVar) × CSState F :=
  point_addition_gadget
    (lcVar (BPVar.committed 0), lcVar (BPVar.committed 1),
     lcVar (BPVar.committed 2), lcVar (BPVar.committed 3))
    (lcVar (BPVar.committed 4), lcVar (BPVar.committed 5),
     lcVar (BPVar.committed 6), lcVar (BPVar.committed 7))
    (lcConst dV) (lcConst aV) CSState.init

/-- A witness assignment for `pointAddRun (-1) 3` with both input points
`(1, 1, 1, 1)`: every gate of the addition circuit is given its forced
value. -/
def pointAddAsg : BPAssignment Fp :=
  ⟨fun n => if n < 8 then 1 else 0,
   fun n => [1, 1, 1, 1, 1, 2, -1, -1, 2, 4, -2, 2].getD n 0,
   fun n => [1, 1, 1, 3, 1, 2, 1, 1, -2, 2, 4, 2].getD n 0,
   fun n => [1, 1, 1, 3, 1, 4, -1, -1, -4, 8, -8, 4].getD n 0⟩


/-! ## The scalar-multiplication ladder (claim C4) -/

/-- The straight-line value of the unified addition formulas of
`SonnyRistrettoPointGadget::add` (`A = X1*X2`, `B = Y1*Y2`, `C = d*(T1*T2)`,
`D = Z1*Z2`, `E = a*A + a*B + (X1+Y1)*(X2+Y2)`, `F = D - C`, `G = D + C`,
`H = B + A`, result `(E*F, G*H, F*G, E*H)`), fully expanded.  The theorems
below prove that the addition circuit *forces* its output wires to these
values under any satisfying assignment. -/
def addV [CommRing F] (a d : F) (p q : SonnyPoint F) : SonnyPoint F :=
  ⟨(a * (p.X * q.X) + a * (p.Y * q.Y) + (p.X + p.Y) * (q.X + q.Y)) *
     (p.Z * q.Z - d * (p.T * q.T)),
   (p.Z * q.Z + d * (p.T * q.T)) * (p.Y * q.Y + p.X * q.X),
   (p.Z * q.Z - d * (p.T * q.T)) * (p.Z * q.Z + d * (p.T * q.T)),
   (a * (p.X * q.X) + a * (p.Y * q.Y) + (p.X + p.Y) * (q.X + q.Y)) *
     (p.Y * q.Y + p.X * q.X)⟩

/-- The value of the conditional-select formulas of
`SonnyRistrettoPointGadget::conditionally_select`: `x' = x * bit`,
`y' = bit * y + (1 - bit)`, `z' = bit * z + (1 - bit)`, `t' = t * bit`. -/
def condSelectV [CommRing F] (b : F) (p : SonnyPoint F) : SonnyPoint F :=
  ⟨p.X * b, b * p.Y + (1 - b), b * p.Z + (1 - b), p.T * b⟩

/-- The extended-coordinates point a circuit point evaluates to under a
witness assignment. -/
def evalPoint [CommRing F] (asg : BPAssignment F)
    (p : SonnyRistrettoPointGadget F) : SonnyPoint F :=
  ⟨evalLC asg p.X, evalLC asg p.Y, evalLC asg p.Z, evalLC asg p.T⟩

/-- The value-level double-and-add recursion that the scalar-multiplication
circuit computes: starting from the identity `(0, 1, 1, 0)`, the bit values
(least-significant first, as zerocaf's `Scalar::into_bits` lays them out) are
reversed so the most-significant bit is processed first, and each step is
`Q ← addV(Q, Q)` (the source implements doubling as addition with itself)
followed by `Q ← addV(Q, condSelectV(bit, base))`. -/
def scalarMulV [CommRing F] (a d : F) (base : SonnyPoint F)
    (bits : List F) : SonnyPoint F :=
  (bits.reverse).foldl
    (fun Q b => addV a d (addV a d Q Q) (condSelectV b base)) ⟨0, 1, 1, 0⟩

/-- The body of the ladder loop of `sk_knowledge_gadget`
(`gadgets/sk_knowledge/sk_know_gadget.rs`): boolean-constrain the bit wire,
double the accumulator, conditionally select the base point by the bit, and
add the selection into the accumulator. -/
def ladder_step [CommRing F] (a d : F) (basep : SonnyRistrettoPointGadget F)
    (acc : SonnyRistrettoPointGadget F × CSState F) (var : BPVar) :
    SonnyRistrettoPointGadget F × CSState F :=
  let s1 := binary_constrain_gadget var acc.2
  let Qd := SonnyRistrettoPointGadget.double a d acc.1 s1
  let sel := SonnyRistrettoPointGadget.conditionally_select basep (lcVar var) Qd.2
  SonnyRistrettoPointGadget.add a d Qd.1 sel.1 sel.2

/-- The scalar-multiplication ladder of `sk_knowledge_gadget`: the accumulator
`Q` starts as the constant identity point `(0, 1, 1, 0)` and the bit-wire
vector is reversed (`sk.reverse()` in the source) before the loop, so the
most-significant bit is processed first. -/
def sk_knowledge_ladder [CommRing F] (a d : F)
    (basep : SonnyRistrettoPointGadget F) (sk : List BPVar) (cs : CSState F) :
    SonnyRistrettoPointGadget F × CSState F :=
  (sk.reverse).foldl (ladder_step a d basep)
    (⟨lcConst 0, lcConst 1, lcConst 1, lcConst 0⟩, cs)

/-- `sk_knowledge_gadget`: the ladder followed by `pk.equals(cs, Q)`. -/
def sk_knowledge_gadget [CommRing F] (a d : F)
    (basep pk : SonnyRistrettoPointGadget F) (sk : List BPVar)
    (cs : CSState F) : CSState F :=
  let r := sk_knowledge_ladder a d basep sk cs
  SonnyRistrettoPointGadget.equals pk r.1 r.2

/-- The three operations the boolean gadget of `boolean.rs` emits when its
multiplication gate gets index `k`. -/
def binaryOps [CommRing F] (bit : BPVar) (k : ℕ) : List (CSOp F) :=
  [CSOp.constrainOp (lcAdd (lcSub (lcSub (lcConst 1) (lcVar bit)) (lcConst 1))
     (lcVar bit)),
   CSOp.mulOp k (lcSub (lcConst 1) (lcVar bit)) (lcVar bit),
   CSOp.constrainOp (lcVar (BPVar.mulOut k))]

/-- The six operations `conditionally_select` emits when its first gate has
index `k`: the four coordinate gates and the two pinning constraints for the
`y` and `z` output linear combinations. -/
def condSelOps [CommRing F] (bit : LinComb F) (p : SonnyRistrettoPointGadget F)
    (k : ℕ) : List (CSOp F) :=
  [CSOp.mulOp k p.X bit,
   CSOp.mulOp (k + 1) (lcVar (BPVar.mulRight k)) p.Y,
   CSOp.constrainOp (lcAdd (lcSub (lcSub
      (lcSub (lcAdd (lcVar (BPVar.mulOut (k + 1))) (lcConst 1))
        (lcVar (BPVar.mulLeft (k + 1))))
      (lcVar (BPVar.mulOut (k + 1)))) (lcConst 1)) (lcVar (BPVar.mulLeft (k + 1)))),
   CSOp.mulOp (k + 2) (lcVar (BPVar.mulLeft (k + 1))) p.Z,
   CSOp.constrainOp (lcAdd (lcSub (lcSub
      (lcSub (lcAdd (lcVar (BPVar.mulOut (k + 2))) (lcConst 1))
        (lcVar (BPVar.mulLeft (k + 2))))
      (lcVar (BPVar.mulOut (k + 2)))) (lcConst 1)) (lcVar (BPVar.mulLeft (k + 2)))),
   CSOp.mulOp (k + 3) p.T (lcVar (BPVar.mulLeft (k + 2)))]

/-- The output circuit point of `conditionally_select` when its first gate has
index `k`. -/
def condSelResult [CommRing F] (k : ℕ) : SonnyRistrettoPointGadget F :=
  ⟨lcVar (BPVar.mulOut k),
   lcSub (lcAdd (lcVar (BPVar.mulOut (k + 1))) (lcConst 1))
     (lcVar (BPVar.mulLeft (k + 1))),
   lcSub (lcAdd (lcVar (BPVar.mulOut (k + 2))) (lcConst 1))
     (lcVar (BPVar.mulLeft (k + 2))),
   lcVar (BPVar.mulOut (k + 3))⟩

/-- The thirteen-element prime field, used to instantiate field-generic
theorems on concrete inputs (the crate's 253-bit modulus has no feasible
primality certificate, and the gadget algebra is uniform in the field). -/
instance : Fact (Nat.Prime 13) := ⟨by norm_num⟩

/-- A base-point gadget on committed wires 4 to 7, used for concrete
evaluation of the ladder. -/
def skBaseGadget : SonnyRistrettoPointGadget (ZMod 13) :=
  ⟨lcVar (BPVar.committed 4), lcVar (BPVar.committed 5),
   lcVar (BPVar.committed 6), lcVar (BPVar.committed 7)⟩

/-- A witness assignment for one full iteration of the ladder (29 gates):
bit wire (committed 0) set to `1`, base point `(1, 2, 1, 1)` on committed
wires 4 to 7, curve constants `a = -1`, `d = 2`; every gate of the boolean,
doubling, conditional-select and addition blocks is given its forced
value. -/
def skLadderAsg : BPAssignment (ZMod 13) :=
  ⟨fun n => [1, 0, 0, 0, 1, 2, 1, 1].getD n 0,
   fun n => [0, 0, 1, 0, 0, 1, 1, -1, -1, 0, 1, 1, 0,
             1, 1, 1, 1,
             0, 1, 0, 0, 1, 1, -1, -1, 1, 1, 1, 1].getD n 0,
   fun n => [1, 0, 1, 0, 2, 1, 1, 0, 1, 1, 1, 1, 1,
             1, 2, 1, 1,
             1, 2, 1, 2, 1, 3, 0, 2, 1, 2, 1, 2].getD n 0,
   fun n => [0, 0, 1, 0, 0, 1, 1, 0, -1, 0, 1, 1, 0,
             1, 2, 1, 1,
             0, 2, 0, 0, 1, 3, 0, -2, 1, 2, 1, 2].getD n 0⟩

end BPG

namespace BPG

/-! # Theorems -/

variable {F : Type}

theorem Satisfies_nil [CommRing F] (asg : BPAssignment F) : Satisfies asg [] := by
  intro op h
  cases h

theorem Satisfies_cons [CommRing F] (asg : BPAssignment F) (op : CSOp F)
    (ops : List (CSOp F)) :
    Satisfies asg (op :: ops) ↔ opHolds asg op ∧ Satisfies asg ops := by
  simp [Satisfies]

/-- The verifier branch of the subgroup-membership gadget always succeeds (it
computes no field inverses). -/
theorem ristretto_gadget_none_isSome [CommRing F] [DecidableEq F] (a d : F)
    (pdouble : SonnyPoint F → SonnyPoint F) (g : SonnyRistrettoPointGadget F)
    (s : CSState F) :
    ∃ s1, SonnyRistrettoPointGadget.ristretto_gadget a d pdouble g none s = some s1 :=
  ⟨_, rfl⟩

/-- The verifier branch of the subgroup-membership gadget never panics. -/
theorem ristretto_gadget_none_ne_none [CommRing F] [DecidableEq F] (a d : F)
    (pdouble : SonnyPoint F → SonnyPoint F) (g : SonnyRistrettoPointGadget F)
    (s : CSState F) :
    SonnyRistrettoPointGadget.ristretto_gadget a d pdouble g none s ≠ none := by
  obtain ⟨s1, h1⟩ := ristretto_gadget_none_isSome a d pdouble g s
  simp [h1]

/-- **C3.** For the input value zero, the non-zero gadget does not surface a
recoverable failure: the prover-side inverse computation aborts (modelled by
`none`), exactly as the repository's own commented-out test in
`gadgets/scalar.rs` documents ("causes a `panic!`").  This contradicts the
specification's requirement of a typed, recoverable error. -/
theorem nonzero_gadget_aborts_on_zero [CommRing F] [DecidableEq F]
    (var : LinComb F) (s : CSState F) :
    nonzero_gadget var (some 0) s = none := by
  simp [nonzero_gadget]

/-- **C10.** The three list-taking point constructors assert that their input
has exactly four elements: for any other length they panic (modelled as
`none`), and for length four the length check passes and a result is
returned. -/
theorem constructors_assert_length_four [CommRing F] [DecidableEq F] :
    (∀ (a d : F) (lcs : List (LinComb F)) (s : CSState F),
        SonnyRistrettoPointGadget.from_lcs a d lcs s = none ↔ lcs.length ≠ 4)
    ∧ (∀ (a d : F) (cms : List Unit) (s : CSState F),
        verifier_commit_to_sonny_point a d cms s = none ↔ cms.length ≠ 4)
    ∧ (∀ (cms : List Unit) (s : CSState F),
        verifier_commit_to_sonny_edwards_point (F := F) cms s = none ↔
          cms.length ≠ 4) := by
  refine ⟨?_, ?_, ?_⟩
  · intro a d lcs s
    rcases lcs with _ | ⟨l0, _ | ⟨l1, _ | ⟨l2, _ | ⟨l3, _ | ⟨l4, rest⟩⟩⟩⟩⟩ <;>
      simp [SonnyRistrettoPointGadget.from_lcs, ristretto_gadget_none_ne_none]
  · intro a d cms s
    by_cases hc : cms.length = 4
    · rcases cms with _ | ⟨c0, _ | ⟨c1, _ | ⟨c2, _ | ⟨c3, _ | ⟨c4, rest⟩⟩⟩⟩⟩ <;>
        simp_all [verifier_commit_to_sonny_point, SonnyRistrettoPointGadget.from_lcs,
          ristretto_gadget_none_ne_none]
    · simp [verifier_commit_to_sonny_point, hc]
  · intro cms s
    by_cases hc : cms.length = 4 <;>
      simp [verifier_commit_to_sonny_edwards_point, hc]

theorem nonzero_gadget_none_spec [CommRing F] [DecidableEq F] (v : LinComb F)
    (s : CSState F) :
    nonzero_gadget v none s =
      some ⟨s.numCommitted, s.numMuls + 2, s.ops ++ nonzeroOps v s.numMuls⟩ := by
  simp [nonzero_gadget, allocate_multiplier, multiply, constrain, nonzeroOps,
    List.append_assoc]

theorem nonzero_gadget_some_spec [CommRing F] [DecidableEq F] (v : LinComb F)
    (q : F) (s : CSState F) :
    nonzero_gadget v (some q) s =
      if q = 0 then none
      else some ⟨s.numCommitted, s.numMuls + 2, s.ops ++ nonzeroOps v s.numMuls⟩ := by
  by_cases h : q = 0 <;>
    simp [nonzero_gadget, allocate_multiplier, multiply, constrain, nonzeroOps,
      List.append_assoc, h]

theorem add_spec [CommRing F] (a d : F) (p q : SonnyRistrettoPointGadget F)
    (s : CSState F) :
    SonnyRistrettoPointGadget.add a d p q s =
      (addResult s.numMuls,
        ⟨s.numCommitted, s.numMuls + 12, s.ops ++ addOps a d p q s.numMuls⟩) := by
  simp [SonnyRistrettoPointGadget.add, addOps, addResult, addE, addF, addG, addH,
    multiply, constrain, List.append_assoc]


/-- **C6.** For every input circuit point, the subgroup-membership gadget
computes `8P` by emitting exactly three doubling-gadget blocks in succession,
and then asserts `8P` is not the identity by applying the non-zero gadget to
the `X` coordinate of `8P` and (after one pinning constraint) to the
difference `Y - Z` of `8P`.  The first conjunct gives the verifier-side trace,
the second the prover-side trace, whose non-zero gadget aborts exactly when
the corresponding witness coordinate combination of the externally doubled
point vanishes. -/
theorem ristretto_gadget_structure [CommRing F] [DecidableEq F] (a d : F)
    (pdouble : SonnyPoint F → SonnyPoint F) (p : SonnyRistrettoPointGadget F)
    (s : CSState F) :
    (SonnyRistrettoPointGadget.ristretto_gadget a d pdouble p none s =
      some ⟨s.numCommitted, s.numMuls + 40,
        s.ops ++ doubleOps a d p s.numMuls
          ++ doubleOps a d (addResult s.numMuls) (s.numMuls + 12)
          ++ doubleOps a d (addResult (s.numMuls + 12)) (s.numMuls + 24)
          ++ nonzeroOps (addResult (s.numMuls + 24)).X (s.numMuls + 36)
          ++ [CSOp.constrainOp (lcAdd
                (lcSub (addResult (s.numMuls + 24)).Y (addResult (s.numMuls + 24)).Z)
                (lcSub (addResult (s.numMuls + 24)).Y (addResult (s.numMuls + 24)).Z))]
          ++ nonzeroOps
              (lcSub (addResult (s.numMuls + 24)).Y (addResult (s.numMuls + 24)).Z)
              (s.numMuls + 38)⟩)
    ∧ ∀ pa : SonnyPoint F,
        SonnyRistrettoPointGadget.ristretto_gadget a d pdouble p (some pa) s =
          (if (pdouble (pdouble (pdouble pa))).X = 0 then none
           else if (pdouble (pdouble (pdouble pa))).Y -
               (pdouble (pdouble (pdouble pa))).Z = 0 then none
           else some ⟨s.numCommitted, s.numMuls + 40,
             s.ops ++ doubleOps a d p s.numMuls
               ++ doubleOps a d (addResult s.numMuls) (s.numMuls + 12)
               ++ doubleOps a d (addResult (s.numMuls + 12)) (s.numMuls + 24)
               ++ nonzeroOps (addResult (s.numMuls + 24)).X (s.numMuls + 36)
               ++ [CSOp.constrainOp (lcSub
                     (lcSub (addResult (s.numMuls + 24)).Y (addResult (s.numMuls + 24)).Z)
                     (lcSub (addResult (s.numMuls + 24)).Y (addResult (s.numMuls + 24)).Z))]
               ++ nonzeroOps
                   (lcSub (addResult (s.numMuls + 24)).Y (addResult (s.numMuls + 24)).Z)
                   (s.numMuls + 38)⟩) := by
  constructor
  · simp [SonnyRistrettoPointGadget.ristretto_gadget, SonnyRistrettoPointGadget.double,
      add_spec, nonzero_gadget_none_spec, constrain, doubleOps, List.append_assoc,
      Nat.add_assoc]
  · intro pa
    by_cases h8 : (pdouble (pdouble (pdouble pa))).X = 0 <;>
      by_cases h9 : (pdouble (pdouble (pdouble pa))).Y -
        (pdouble (pdouble (pdouble pa))).Z = 0 <;>
      simp [SonnyRistrettoPointGadget.ristretto_gadget, SonnyRistrettoPointGadget.double,
        add_spec, nonzero_gadget_some_spec, constrain, doubleOps, List.append_assoc,
        Nat.add_assoc, h8, h9]


/-- **C8 (amended).** The Ristretto-point introducers (`from_point`,
`from_lcs`, `prover_commit_to_sonny_point`, `verifier_commit_to_sonny_point`)
all run the subgroup-membership gadget on the freshly built circuit point
before returning it, whereas the Edwards-point introducers
(`prover_commit_to_sonny_edwards_point`,
`verifier_commit_to_sonny_edwards_point`) add no constraint-system operation
at all: their final operation list is the input operation list. -/
theorem point_introducers_and_subgroup_constraints [CommRing F] [DecidableEq F] :
    (∀ (a d : F) (pdouble : SonnyPoint F → SonnyPoint F) (p : SonnyPoint F)
        (s : CSState F),
        prover_commit_to_sonny_point a d pdouble p s =
          (SonnyRistrettoPointGadget.ristretto_gadget a d pdouble
              ⟨lcVar (BPVar.committed s.numCommitted),
               lcVar (BPVar.committed (s.numCommitted + 1)),
               lcVar (BPVar.committed (s.numCommitted + 2)),
               lcVar (BPVar.committed (s.numCommitted + 3))⟩
              (some p) ⟨s.numCommitted + 4, s.numMuls, s.ops⟩).map
            fun s5 =>
              (⟨lcVar (BPVar.committed s.numCommitted),
                lcVar (BPVar.committed (s.numCommitted + 1)),
                lcVar (BPVar.committed (s.numCommitted + 2)),
                lcVar (BPVar.committed (s.numCommitted + 3))⟩, s5))
    ∧ (∀ (a d : F) (pdouble : SonnyPoint F → SonnyPoint F) (p : SonnyPoint F)
        (s : CSState F),
        SonnyRistrettoPointGadget.from_point a d pdouble p s =
          (SonnyRistrettoPointGadget.ristretto_gadget a d pdouble
              ⟨lcConst p.X, lcConst p.Y, lcConst p.Z, lcConst p.T⟩ (some p) s).map
            fun s1 => (⟨lcConst p.X, lcConst p.Y, lcConst p.Z, lcConst p.T⟩, s1))
    ∧ (∀ (a d : F) (l0 l1 l2 l3 : LinComb F) (s : CSState F),
        SonnyRistrettoPointGadget.from_lcs a d [l0, l1, l2, l3] s =
          (SonnyRistrettoPointGadget.ristretto_gadget a d (fun q => q)
              ⟨l0, l1, l2, l3⟩ none s).map fun s1 => (⟨l0, l1, l2, l3⟩, s1))
    ∧ (∀ (a d : F) (s : CSState F),
        verifier_commit_to_sonny_point a d [(), (), (), ()] s =
          (SonnyRistrettoPointGadget.ristretto_gadget a d (fun q => q)
              ⟨lcVar (BPVar.committed s.numCommitted),
               lcVar (BPVar.committed (s.numCommitted + 1)),
               lcVar (BPVar.committed (s.numCommitted + 2)),
               lcVar (BPVar.committed (s.numCommitted + 3))⟩
              none ⟨s.numCommitted + 4, s.numMuls, s.ops⟩).map
            fun s5 =>
              (⟨lcVar (BPVar.committed s.numCommitted),
                lcVar (BPVar.committed (s.numCommitted + 1)),
                lcVar (BPVar.committed (s.numCommitted + 2)),
                lcVar (BPVar.committed (s.numCommitted + 3))⟩, s5))
    ∧ (∀ (p : SonnyPoint F) (s : CSState F),
        prover_commit_to_sonny_edwards_point p s =
          (⟨lcVar (BPVar.committed s.numCommitted),
            lcVar (BPVar.committed (s.numCommitted + 1)),
            lcVar (BPVar.committed (s.numCommitted + 2)),
            lcVar (BPVar.committed (s.numCommitted + 3))⟩,
           ⟨s.numCommitted + 4, s.numMuls, s.ops⟩))
    ∧ (∀ s : CSState F,
        verifier_commit_to_sonny_edwards_point [(), (), (), ()] s =
          some (⟨lcVar (BPVar.committed s.numCommitted),
                 lcVar (BPVar.committed (s.numCommitted + 1)),
                 lcVar (BPVar.committed (s.numCommitted + 2)),
                 lcVar (BPVar.committed (s.numCommitted + 3))⟩,
                ⟨s.numCommitted + 4, s.numMuls, s.ops⟩)) := by
  refine ⟨?_, ?_, ?_, ?_, ?_, ?_⟩
  · intro a d pdouble p s
    simp [prover_commit_to_sonny_point, commitVar]
  · intro a d pdouble p s
    simp [SonnyRistrettoPointGadget.from_point]
  · intro a d l0 l1 l2 l3 s
    simp [SonnyRistrettoPointGadget.from_lcs]
  · intro a d s
    simp [verifier_commit_to_sonny_point, SonnyRistrettoPointGadget.from_lcs, commitVar]
  · intro p s
    simp [prover_commit_to_sonny_edwards_point, commitVar]
  · intro s
    simp [verifier_commit_to_sonny_edwards_point, commitVar]

/-- **C8 (counterexample).** At a concrete input over the crate's field, the
Edwards prover-side point-commitment helper emits no constraint-system
operation whatsoever, while the subgroup-membership gadget run on the very
same committed circuit point would emit sixty-one operations; so the claim
that every point-commitment helper adds the subgroup-membership constraints
before returning is false. -/
theorem prover_commit_edwards_adds_no_constraints :
    (prover_commit_to_sonny_edwards_point (F := Fp) ⟨1, 2, 1, 1⟩ CSState.init).2.ops = []
    ∧ ((SonnyRistrettoPointGadget.ristretto_gadget (-1 : Fp) 2 (fun q => q)
          ⟨lcVar (BPVar.committed 0), lcVar (BPVar.committed 1),
           lcVar (BPVar.committed 2), lcVar (BPVar.committed 3)⟩ none
          ⟨4, 0, []⟩).map fun s => s.ops.length) = some 61 := by
  constructor
  · rfl
  · rfl

/-- **C1.** The trace of constraint-system operations the subgroup-membership
gadget emits on the prover side (`point_assign = some _`) differs from the
trace it emits on the verifier side (`point_assign = none`) on the same
circuit point: the prover branch pins `y_m_z` with the constraint
`Y - Z - y_m_z` while the verifier branch constrains `Y - Z + y_m_z`, so the
two constrained linear combinations (and hence the two constraint systems)
are not structurally identical, contradicting the ordering guarantee. -/
theorem ristretto_gadget_prover_verifier_traces_differ :
    ((SonnyRistrettoPointGadget.ristretto_gadget (-1 : Fp) 2 (fun q => q)
        ⟨lcVar (BPVar.committed 0), lcVar (BPVar.committed 1),
         lcVar (BPVar.committed 2), lcVar (BPVar.committed 3)⟩
        (some ⟨1, 2, 1, 1⟩) CSState.init).map fun s => s.ops) ≠
      ((SonnyRistrettoPointGadget.ristretto_gadget (-1 : Fp) 2 (fun q => q)
          ⟨lcVar (BPVar.committed 0), lcVar (BPVar.committed 1),
           lcVar (BPVar.committed 2), lcVar (BPVar.committed 3)⟩
          none CSState.init).map fun s => s.ops) := by
  decide


/-- **C9.** For every field value `b` on the committed wire, the constraint
system emitted by the boolean gadget (and by its duplicate without the pinning
constraint) is satisfiable exactly when `b = 0` or `b = 1`: the gate forces
the product `(1 - b) * b` onto the output wire and the constraint forces that
product to vanish, which over a field happens only for the two boolean
values. -/
theorem binary_constrain_gadget_satisfiable_iff {F : Type} [Field F]
    [DecidableEq F] (b : F) :
    ((∃ asg : BPAssignment F, asg.committed 0 = b ∧
        Satisfies asg ((binary_constrain_gadget (BPVar.committed 0)
          CSState.init).ops)) ↔ b = 0 ∨ b = 1)
    ∧ ((∃ asg : BPAssignment F, asg.committed 0 = b ∧
        Satisfies asg ((binary_constrain_gadget_cs (BPVar.committed 0)
          CSState.init).ops)) ↔ b = 0 ∨ b = 1) := by
  have htr : (binary_constrain_gadget (BPVar.committed 0)
      (CSState.init (F := F))).ops =
      [CSOp.constrainOp (lcAdd (lcSub (lcSub (lcConst 1)
          (lcVar (BPVar.committed 0))) (lcConst 1)) (lcVar (BPVar.committed 0))),
       CSOp.mulOp 0 (lcSub (lcConst 1) (lcVar (BPVar.committed 0)))
         (lcVar (BPVar.committed 0)),
       CSOp.constrainOp (lcVar (BPVar.mulOut 0))] := rfl
  have htr2 : (binary_constrain_gadget_cs (BPVar.committed 0)
      (CSState.init (F := F))).ops =
      [CSOp.mulOp 0 (lcSub (lcConst 1) (lcVar (BPVar.committed 0)))
         (lcVar (BPVar.committed 0)),
       CSOp.constrainOp (lcVar (BPVar.mulOut 0))] := rfl
  constructor
  · constructor
    · rintro ⟨asg, hb, hs⟩
      rw [htr] at hs
      simp only [Satisfies_cons] at hs
      obtain ⟨-, ⟨hL, hR, hO⟩, h3, -⟩ := hs
      simp only [opHolds, evalLC, lcSub, lcAdd, lcConst, lcVar, lcNeg, varValue,
        List.map_cons, List.map_nil, List.map_append, List.cons_append,
        List.nil_append, List.sum_cons, List.sum_nil, hb] at hL hR h3
      rw [hO, hL, hR] at h3
      have h4 : (1 - b) * b = 0 := by linear_combination h3
      rcases mul_eq_zero.mp h4 with h | h
      · right
        linear_combination -h
      · left
        linear_combination h
    · rintro (rfl | rfl)
      · refine ⟨⟨fun _ => 0, fun _ => 1, fun _ => 0, fun _ => 0⟩, rfl, ?_⟩
        rw [htr]
        simp [Satisfies, opHolds, evalLC, lcSub, lcAdd, lcConst, lcVar, lcNeg,
          varValue]
      · refine ⟨⟨fun _ => 1, fun _ => 0, fun _ => 1, fun _ => 0⟩, rfl, ?_⟩
        rw [htr]
        simp [Satisfies, opHolds, evalLC, lcSub, lcAdd, lcConst, lcVar, lcNeg,
          varValue]
  · constructor
    · rintro ⟨asg, hb, hs⟩
      rw [htr2] at hs
      simp only [Satisfies_cons] at hs
      obtain ⟨⟨hL, hR, hO⟩, h3, -⟩ := hs
      simp only [opHolds, evalLC, lcSub, lcAdd, lcConst, lcVar, lcNeg, varValue,
        List.map_cons, List.map_nil, List.map_append, List.cons_append,
        List.nil_append, List.sum_cons, List.sum_nil, hb] at hL hR h3
      rw [hO, hL, hR] at h3
      have h4 : (1 - b) * b = 0 := by linear_combination h3
      rcases mul_eq_zero.mp h4 with h | h
      · right
        linear_combination -h
      · left
        linear_combination h
    · rintro (rfl | rfl)
      · refine ⟨⟨fun _ => 0, fun _ => 1, fun _ => 0, fun _ => 0⟩, rfl, ?_⟩
        rw [htr2]
        simp [Satisfies, opHolds, evalLC, lcSub, lcAdd, lcConst, lcVar, lcNeg,
          varValue]
      · refine ⟨⟨fun _ => 1, fun _ => 0, fun _ => 1, fun _ => 0⟩, rfl, ?_⟩
        rw [htr2]
        simp [Satisfies, opHolds, evalLC, lcSub, lcAdd, lcConst, lcVar, lcNeg,
          varValue]


/-- **C7 (amended).** For circuit points on committed wires with values
`c 0 .. c 7`, the Ristretto point-equality gadget `equals` adds the single
cross-multiplication constraint `X1*Y2 - Y1*X2 = 0` and a satisfying
assignment exists exactly when that equation holds over the field, while the
Edwards point-equality gadget `equal` adds the two constraints through `Z`,
`X1*Z2 - X2*Z1 = 0` and `Y1*Z2 - Y2*Z1 = 0`, and a satisfying assignment
exists exactly when both hold. -/
theorem equals_and_equal_satisfiable_iff {F : Type} [CommRing F]
    [DecidableEq F] (c : ℕ → F) :
    ((∃ asg : BPAssignment F, (∀ n, asg.committed n = c n) ∧
        Satisfies asg ((SonnyRistrettoPointGadget.equals
          ⟨lcVar (BPVar.committed 0), lcVar (BPVar.committed 1),
           lcVar (BPVar.committed 2), lcVar (BPVar.committed 3)⟩
          ⟨lcVar (BPVar.committed 4), lcVar (BPVar.committed 5),
           lcVar (BPVar.committed 6), lcVar (BPVar.committed 7)⟩
          CSState.init).ops)) ↔ c 0 * c 5 - c 1 * c 4 = 0)
    ∧ ((∃ asg : BPAssignment F, (∀ n, asg.committed n = c n) ∧
        Satisfies asg ((SonnyEdwardsPointGadget.equal
          ⟨lcVar (BPVar.committed 0), lcVar (BPVar.committed 1),
           lcVar (BPVar.committed 2), lcVar (BPVar.committed 3)⟩
          ⟨lcVar (BPVar.committed 4), lcVar (BPVar.committed 5),
           lcVar (BPVar.committed 6), lcVar (BPVar.committed 7)⟩
          CSState.init).ops)) ↔
        (c 0 * c 6 - c 4 * c 2 = 0 ∧ c 1 * c 6 - c 5 * c 2 = 0)) := by
  have htr : (SonnyRistrettoPointGadget.equals (F := F)
      ⟨lcVar (BPVar.committed 0), lcVar (BPVar.committed 1),
       lcVar (BPVar.committed 2), lcVar (BPVar.committed 3)⟩
      ⟨lcVar (BPVar.committed 4), lcVar (BPVar.committed 5),
       lcVar (BPVar.committed 6), lcVar (BPVar.committed 7)⟩
      CSState.init).ops =
      [CSOp.mulOp 0 (lcVar (BPVar.committed 0)) (lcVar (BPVar.committed 5)),
       CSOp.mulOp 1 (lcVar (BPVar.committed 1)) (lcVar (BPVar.committed 4)),
       CSOp.constrainOp (lcSub (lcVar (BPVar.mulOut 0))
         (lcVar (BPVar.mulOut 1)))] := rfl
  have htr2 : (SonnyEdwardsPointGadget.equal (F := F)
      ⟨lcVar (BPVar.committed 0), lcVar (BPVar.committed 1),
       lcVar (BPVar.committed 2), lcVar (BPVar.committed 3)⟩
      ⟨lcVar (BPVar.committed 4), lcVar (BPVar.committed 5),
       lcVar (BPVar.committed 6), lcVar (BPVar.committed 7)⟩
      CSState.init).ops =
      [CSOp.mulOp 0 (lcVar (BPVar.committed 0)) (lcVar (BPVar.committed 6)),
       CSOp.mulOp 1 (lcVar (BPVar.committed 4)) (lcVar (BPVar.committed 2)),
       CSOp.constrainOp (lcSub (lcVar (BPVar.mulOut 0)) (lcVar (BPVar.mulOut 1))),
       CSOp.mulOp 2 (lcVar (BPVar.committed 1)) (lcVar (BPVar.mulRight 0)),
       CSOp.mulOp 3 (lcVar (BPVar.committed 5)) (lcVar (BPVar.mulRight 1)),
       CSOp.constrainOp (lcSub (lcVar (BPVar.mulOut 2))
         (lcVar (BPVar.mulOut 3)))] := rfl
  constructor
  · constructor
    · rintro ⟨asg, hc, hs⟩
      rw [htr] at hs
      simp only [Satisfies_cons] at hs
      obtain ⟨⟨hL0, hR0, hO0⟩, ⟨hL1, hR1, hO1⟩, h3, -⟩ := hs
      simp only [opHolds, evalLC, lcSub, lcVar, lcNeg, varValue, List.map_cons,
        List.map_nil, List.map_append, List.cons_append, List.nil_append,
        List.sum_cons, List.sum_nil, hc] at hL0 hR0 hL1 hR1 h3
      rw [hO0, hO1, hL0, hR0, hL1, hR1] at h3
      linear_combination h3
    · intro h
      refine ⟨⟨c, fun n => if n = 0 then c 0 else c 1,
          fun n => if n = 0 then c 5 else c 4,
          fun n => if n = 0 then c 0 * c 5 else c 1 * c 4⟩,
        fun n => rfl, ?_⟩
      rw [htr]
      simp [Satisfies, opHolds, evalLC, lcSub, lcVar, lcNeg, varValue]
      linear_combination h
  · constructor
    · rintro ⟨asg, hc, hs⟩
      rw [htr2] at hs
      simp only [Satisfies_cons] at hs
      obtain ⟨⟨hL0, hR0, hO0⟩, ⟨hL1, hR1, hO1⟩, h3, ⟨hL2, hR2, hO2⟩,
        ⟨hL3, hR3, hO3⟩, h6, -⟩ := hs
      simp only [opHolds, evalLC, lcSub, lcVar, lcNeg, varValue, List.map_cons,
        List.map_nil, List.map_append, List.cons_append, List.nil_append,
        List.sum_cons, List.sum_nil, hc] at hL0 hR0 hL1 hR1 hL2 hR2 hL3 hR3 h3 h6
      rw [hO0, hO1, hL0, hR0, hL1, hR1] at h3
      rw [hO2, hO3, hL2, hR2, hL3, hR3, hR0, hR1] at h6
      constructor
      · linear_combination h3
      · linear_combination h6
    · rintro ⟨h1, h2⟩
      refine ⟨⟨c,
          fun n => if n = 0 then c 0 else if n = 1 then c 4 else
            if n = 2 then c 1 else c 5,
          fun n => if n = 0 then c 6 else if n = 1 then c 2 else
            if n = 2 then c 6 else c 2,
          fun n => if n = 0 then c 0 * c 6 else if n = 1 then c 4 * c 2 else
            if n = 2 then c 1 * c 6 else c 5 * c 2⟩,
        fun n => rfl, ?_⟩
      rw [htr2]
      simp [Satisfies, opHolds, evalLC, lcSub, lcVar, lcNeg, varValue]
      constructor
      · linear_combination h1
      · linear_combination h2

/-- **C7 (counterexample).** Over the crate's field, take the committed points
`P1 = (1, 1, 1, 1)` and `P2 = (2, 2, 1, 1)`.  The single cross-multiplication
equation of the claim holds (`X1*Y2 - Y1*X2 = 1*2 - 1*2 = 0`), yet the
Edwards point-equality gadget `equal` — one of the two point-equality gadgets
the claim describes — admits no satisfying assignment for these points, since
its first constraint forces `X1*Z2 - X2*Z1 = 1 - 2 = 0`.  So satisfiability of
the point-equality gadget is not equivalent to that single equation. -/
theorem equal_gadget_counterexample :
    ((1 : Fp) * 2 - 1 * 2 = 0)
    ∧ ¬∃ asg : BPAssignment Fp,
        (asg.committed 0 = 1 ∧ asg.committed 1 = 1 ∧ asg.committed 2 = 1 ∧
         asg.committed 3 = 1 ∧ asg.committed 4 = 2 ∧ asg.committed 5 = 2 ∧
         asg.committed 6 = 1 ∧ asg.committed 7 = 1) ∧
        Satisfies asg ((SonnyEdwardsPointGadget.equal
          ⟨lcVar (BPVar.committed 0), lcVar (BPVar.committed 1),
           lcVar (BPVar.committed 2), lcVar (BPVar.committed 3)⟩
          ⟨lcVar (BPVar.committed 4), lcVar (BPVar.committed 5),
           lcVar (BPVar.committed 6), lcVar (BPVar.committed 7)⟩
          CSState.init).ops) := by
  constructor
  · decide
  · rintro ⟨asg, ⟨hc0, hc1, hc2, hc3, hc4, hc5, hc6, hc7⟩, hs⟩
    have htr2 : (SonnyEdwardsPointGadget.equal (F := Fp)
        ⟨lcVar (BPVar.committed 0), lcVar (BPVar.committed 1),
         lcVar (BPVar.committed 2), lcVar (BPVar.committed 3)⟩
        ⟨lcVar (BPVar.committed 4), lcVar (BPVar.committed 5),
         lcVar (BPVar.committed 6), lcVar (BPVar.committed 7)⟩
        CSState.init).ops =
        [CSOp.mulOp 0 (lcVar (BPVar.committed 0)) (lcVar (BPVar.committed 6)),
         CSOp.mulOp 1 (lcVar (BPVar.committed 4)) (lcVar (BPVar.committed 2)),
         CSOp.constrainOp (lcSub (lcVar (BPVar.mulOut 0)) (lcVar (BPVar.mulOut 1))),
         CSOp.mulOp 2 (lcVar (BPVar.committed 1)) (lcVar (BPVar.mulRight 0)),
         CSOp.mulOp 3 (lcVar (BPVar.committed 5)) (lcVar (BPVar.mulRight 1)),
         CSOp.constrainOp (lcSub (lcVar (BPVar.mulOut 2))
           (lcVar (BPVar.mulOut 3)))] := rfl
    rw [htr2] at hs
    simp only [Satisfies_cons] at hs
    obtain ⟨⟨hL0, hR0, hO0⟩, ⟨hL1, hR1, hO1⟩, h3, -⟩ := hs
    simp only [opHolds, evalLC, lcSub, lcVar, lcNeg, varValue, List.map_cons,
      List.map_nil, List.map_append, List.cons_append, List.nil_append,
      List.sum_cons, List.sum_nil, hc0, hc2, hc4, hc6] at hL0 hR0 hL1 hR1 h3
    rw [hO0, hO1, hL0, hR0, hL1, hR1] at h3
    have hcontra : (1 : Fp) - 2 = 0 := by linear_combination h3
    exact absurd hcontra (by decide)


/-- **C2.** At bit value `0` and input point `(1, 2, 3, 4)` over the crate's
field, a witness assignment satisfying every gate of
`conditional_select_gadget` gives the output wires the values
`(0, 2, 0, 4)` — the gadget returns `(X*bit, Y, Z*bit, T)` — so the `Y` and
`Z` outputs violate the claimed formulas `Y' = bit*Y + (1 - bit)`,
`Z' = bit*Z + (1 - bit)`, and the output is not the identity `(0, 1, 1, 0)`
that the gadget's own documentation promises for `bit = 0`. -/
theorem conditional_select_gadget_zero_bit_not_identity :
    condSelAsg.committed 0 = 0
    ∧ condSelAsg.committed 1 = 1 ∧ condSelAsg.committed 2 = 2
    ∧ condSelAsg.committed 3 = 3 ∧ condSelAsg.committed 4 = 4
    ∧ Satisfies condSelAsg condSelRun.2.ops
    ∧ varValue condSelAsg condSelRun.1.1 = 0
    ∧ varValue condSelAsg condSelRun.1.2.1 = 2
    ∧ varValue condSelAsg condSelRun.1.2.2.1 = 0
    ∧ varValue condSelAsg condSelRun.1.2.2.2 = 4
    ∧ varValue condSelAsg condSelRun.1.2.1 ≠ 1
    ∧ varValue condSelAsg condSelRun.1.2.2.1 ≠ 1
    ∧ varValue condSelAsg condSelRun.1.2.2.2 ≠ 0 := by
  decide

/-- **C5 (amended).** In the point-addition gadget, any assignment satisfying
the emitted gates gives the intermediate linear combination `E` the value
`a*A + a*B + (X1+Y1)*(X2+Y2)` — with *plus* signs on `a*A` and `a*B`, not the
minus signs of the claim — and `E` is the left input of the gates producing
`X3` and `T3`. -/
theorem point_addition_gadget_E_value {F : Type} [CommRing F] [DecidableEq F]
    (aV dV : F) (asg : BPAssignment F)
    (hs : Satisfies asg (pointAddRun aV dV).2.ops) :
    evalLC asg (addE 0) =
      aV * (asg.committed 0 * asg.committed 4) +
        aV * (asg.committed 1 * asg.committed 5) +
        (asg.committed 0 + asg.committed 1) * (asg.committed 4 + asg.committed 5)
    ∧ (pointAddRun aV dV).2.ops.get? 8 = some (CSOp.mulOp 8 (addE 0) (addF 0))
    ∧ (pointAddRun aV dV).2.ops.get? 11 = some (CSOp.mulOp 11 (addE 0) (addH 0)) := by
  have htr : (pointAddRun aV dV).2.ops =
      [CSOp.mulOp 0 (lcVar (BPVar.committed 0)) (lcVar (BPVar.committed 4)),
       CSOp.mulOp 1 (lcVar (BPVar.committed 1)) (lcVar (BPVar.committed 5)),
       CSOp.mulOp 2 (lcVar (BPVar.committed 3)) (lcVar (BPVar.committed 7)),
       CSOp.mulOp 3 (lcVar (BPVar.mulOut 2)) (lcConst dV),
       CSOp.mulOp 4 (lcVar (BPVar.committed 2)) (lcVar (BPVar.committed 6)),
       CSOp.mulOp 5 (lcAdd (lcVar (BPVar.committed 0)) (lcVar (BPVar.committed 1)))
         (lcAdd (lcVar (BPVar.committed 4)) (lcVar (BPVar.committed 5))),
       CSOp.mulOp 6 (lcConst aV) (lcVar (BPVar.mulOut 0)),
       CSOp.mulOp 7 (lcConst aV) (lcVar (BPVar.mulOut 1)),
       CSOp.mulOp 8 (addE 0) (addF 0),
       CSOp.mulOp 9 (addG 0) (addH 0),
       CSOp.mulOp 10 (addF 0) (addG 0),
       CSOp.mulOp 11 (addE 0) (addH 0)] := rfl
  rw [htr] at hs
  simp only [Satisfies_cons] at hs
  obtain ⟨⟨hL0, hR0, hO0⟩, ⟨hL1, hR1, hO1⟩, -, -, -, ⟨hL5, hR5, hO5⟩,
    ⟨hL6, hR6, hO6⟩, ⟨hL7, hR7, hO7⟩, -⟩ := hs
  simp only [evalLC, lcAdd, lcConst, lcVar, lcNeg, varValue, List.map_cons,
    List.map_nil, List.map_append, List.cons_append, List.nil_append,
    List.sum_cons, List.sum_nil, one_mul, mul_one, add_zero] at hL0 hR0 hL1 hR1
  simp only [evalLC, lcAdd, lcConst, lcVar, lcNeg, varValue, List.map_cons,
    List.map_nil, List.map_append, List.cons_append, List.nil_append,
    List.sum_cons, List.sum_nil, one_mul, mul_one, add_zero] at hL5 hR5 hL6 hR6 hL7 hR7
  have e0 : asg.mulO 0 = asg.committed 0 * asg.committed 4 := by
    rw [hO0, hL0, hR0]
  have e1 : asg.mulO 1 = asg.committed 1 * asg.committed 5 := by
    rw [hO1, hL1, hR1]
  have e5 : asg.mulO 5 =
      (asg.committed 0 + asg.committed 1) * (asg.committed 4 + asg.committed 5) := by
    rw [hO5, hL5, hR5]
  have e6 : asg.mulO 6 = aV * (asg.committed 0 * asg.committed 4) := by
    rw [hO6, hL6, hR6, e0]
  have e7 : asg.mulO 7 = aV * (asg.committed 1 * asg.committed 5) := by
    rw [hO7, hL7, hR7, e1]
  refine ⟨?_, rfl, rfl⟩
  simp only [addE, evalLC, lcAdd, lcVar, varValue, List.map_cons, List.map_nil,
    List.map_append, List.cons_append, List.nil_append, List.sum_cons,
    List.sum_nil, one_mul, add_zero]
  rw [e6, e7, e5]
  ring

/-- Witness for the amended C5 theorem: a concrete satisfying assignment for
the addition circuit on the inputs `(1,1,1,1)`, `(1,1,1,1)` with `a = -1`,
`d = 3` over the crate's field, at which the theorem applies and gives
`E = 2`. -/
theorem point_addition_gadget_E_value_witness :
    Satisfies pointAddAsg (pointAddRun (-1 : Fp) 3).2.ops
    ∧ (evalLC pointAddAsg (addE 0) =
        (-1 : Fp) * (pointAddAsg.committed 0 * pointAddAsg.committed 4) +
          (-1 : Fp) * (pointAddAsg.committed 1 * pointAddAsg.committed 5) +
          (pointAddAsg.committed 0 + pointAddAsg.committed 1) *
            (pointAddAsg.committed 4 + pointAddAsg.committed 5)
      ∧ (pointAddRun (-1 : Fp) 3).2.ops.get? 8 =
          some (CSOp.mulOp 8 (addE 0) (addF 0))
      ∧ (pointAddRun (-1 : Fp) 3).2.ops.get? 11 =
          some (CSOp.mulOp 11 (addE 0) (addH 0))) :=
  ⟨by decide, point_addition_gadget_E_value (-1 : Fp) 3 pointAddAsg (by decide)⟩

/-- **C5 (counterexample).** With both input points `(1, 1, 1, 1)` and the
curve constant `a = -1` (zerocaf's `EDWARDS_A`), a satisfying assignment of
the addition circuit gives the intermediate `E` — the left input of the gates
producing `X3` and `T3` — the value `2`, while the claimed expression
`(X1+Y1)*(X2+Y2) - a*A - a*B` evaluates to `6 ≠ 2` over the crate's field. -/
theorem point_addition_E_sign_counterexample :
    pointAddAsg.committed 0 = 1 ∧ pointAddAsg.committed 1 = 1
    ∧ pointAddAsg.committed 2 = 1 ∧ pointAddAsg.committed 3 = 1
    ∧ pointAddAsg.committed 4 = 1 ∧ pointAddAsg.committed 5 = 1
    ∧ pointAddAsg.committed 6 = 1 ∧ pointAddAsg.committed 7 = 1
    ∧ Satisfies pointAddAsg (pointAddRun (-1 : Fp) 3).2.ops
    ∧ (pointAddRun (-1 : Fp) 3).2.ops.get? 8 =
        some (CSOp.mulOp 8 (addE 0) (addF 0))
    ∧ (pointAddRun (-1 : Fp) 3).2.ops.get? 11 =
        some (CSOp.mulOp 11 (addE 0) (addH 0))
    ∧ evalLC pointAddAsg (addE 0) = 2
    ∧ ((1 : Fp) + 1) * (1 + 1) - (-1 : Fp) * (1 * 1) - (-1 : Fp) * (1 * 1) = 6
    ∧ (2 : Fp) ≠ 6 := by
  decide


theorem Satisfies_append [CommRing F] (asg : BPAssignment F)
    (l1 l2 : List (CSOp F)) :
    Satisfies asg (l1 ++ l2) ↔ Satisfies asg l1 ∧ Satisfies asg l2 := by
  simp [Satisfies, List.mem_append, or_imp, forall_and]

theorem evalLC_lcVar [CommRing F] (asg : BPAssignment F) (v : BPVar) :
    evalLC asg (lcVar v) = varValue asg v := by
  simp [evalLC, lcVar]

theorem evalLC_lcConst [CommRing F] (asg : BPAssignment F) (c : F) :
    evalLC asg (lcConst c) = c := by
  simp [evalLC, lcConst, varValue]

theorem evalLC_lcAdd [CommRing F] (asg : BPAssignment F) (l r : LinComb F) :
    evalLC asg (lcAdd l r) = evalLC asg l + evalLC asg r := by
  simp [evalLC, lcAdd]

theorem evalLC_lcNeg [CommRing F] (asg : BPAssignment F) (l : LinComb F) :
    evalLC asg (lcNeg l) = -evalLC asg l := by
  induction l with
  | nil => simp [evalLC, lcNeg]
  | cons t ts ih =>
      simp only [evalLC, lcNeg, List.map_cons, List.sum_cons] at ih ⊢
      rw [ih]
      ring

theorem evalLC_lcSub [CommRing F] (asg : BPAssignment F) (l r : LinComb F) :
    evalLC asg (lcSub l r) = evalLC asg l - evalLC asg r := by
  show evalLC asg (l ++ lcNeg r) = _
  rw [show l ++ lcNeg r = lcAdd l (lcNeg r) from rfl, evalLC_lcAdd, evalLC_lcNeg]
  ring

/-- Trace equation for the boolean gadget. -/
theorem binary_constrain_gadget_spec [CommRing F] (bit : BPVar) (s : CSState F) :
    binary_constrain_gadget bit s =
      ⟨s.numCommitted, s.numMuls + 1, s.ops ++ binaryOps bit s.numMuls⟩ := by
  simp [binary_constrain_gadget, constrain, multiply, binaryOps, List.append_assoc]

/-- Trace equation for `conditionally_select`. -/
theorem conditionally_select_spec [CommRing F]
    (self : SonnyRistrettoPointGadget F) (bit : LinComb F) (s : CSState F) :
    SonnyRistrettoPointGadget.conditionally_select self bit s =
      (condSelResult s.numMuls,
        ⟨s.numCommitted, s.numMuls + 4,
          s.ops ++ condSelOps bit self s.numMuls⟩) := by
  simp [SonnyRistrettoPointGadget.conditionally_select, constrain, multiply,
    condSelOps, condSelResult, List.append_assoc, Nat.add_assoc]

/-- Any assignment satisfying the boolean gadget block gives the bit wire the
value zero or one. -/
theorem binaryOps_sound {F : Type} [Field F] (bit : BPVar) (k : ℕ)
    (asg : BPAssignment F) (hs : Satisfies asg (binaryOps bit k)) :
    varValue asg bit = 0 ∨ varValue asg bit = 1 := by
  simp only [binaryOps, Satisfies_cons] at hs
  obtain ⟨-, ⟨hL, hR, hO⟩, h3, -⟩ := hs
  rw [evalLC_lcSub, evalLC_lcConst, evalLC_lcVar] at hL
  rw [evalLC_lcVar] at hR
  simp only [opHolds, evalLC_lcVar, varValue] at h3
  rw [hO, hL, hR] at h3
  rcases mul_eq_zero.mp h3 with h | h
  · right
    linear_combination -h
  · left
    exact h

/-- Any assignment satisfying an addition block forces the output wires to the
straight-line values of the addition formulas. -/
theorem addOps_sound [CommRing F] (a d : F)
    (p q : SonnyRistrettoPointGadget F) (k : ℕ) (asg : BPAssignment F)
    (hs : Satisfies asg (addOps a d p q k)) :
    evalPoint asg (addResult k) = addV a d (evalPoint asg p) (evalPoint asg q) := by
  simp only [addOps, Satisfies_cons] at hs
  obtain ⟨⟨hL0, hR0, hO0⟩, ⟨hL1, hR1, hO1⟩, ⟨hL2, hR2, hO2⟩, ⟨hL3, hR3, hO3⟩,
    ⟨hL4, hR4, hO4⟩, -, -, ⟨hL5, hR5, hO5⟩, ⟨hL6, hR6, hO6⟩, ⟨hL7, hR7, hO7⟩,
    -, -, -, -, ⟨hL8, hR8, hO8⟩, ⟨hL9, hR9, hO9⟩, ⟨hL10, hR10, hO10⟩,
    ⟨hL11, hR11, hO11⟩, -⟩ := hs
  simp only [addE, addF, addG, addH, evalLC_lcAdd, evalLC_lcSub, evalLC_lcVar,
    evalLC_lcConst, varValue] at hL3 hR3 hL5 hR5 hL6 hR6 hL7 hR7 hL8 hR8 hL9
  simp only [addE, addF, addG, addH, evalLC_lcAdd, evalLC_lcSub, evalLC_lcVar,
    evalLC_lcConst, varValue] at hR9 hL10 hR10 hL11 hR11
  have eA : asg.mulO k = evalLC asg p.X * evalLC asg q.X := by rw [hO0, hL0, hR0]
  have eB : asg.mulO (k + 1) = evalLC asg p.Y * evalLC asg q.Y := by
    rw [hO1, hL1, hR1]
  have ePT : asg.mulO (k + 2) = evalLC asg p.T * evalLC asg q.T := by
    rw [hO2, hL2, hR2]
  have eC : asg.mulO (k + 3) = evalLC asg p.T * evalLC asg q.T * d := by
    rw [hO3, hL3, hR3, ePT]
  have eD : asg.mulO (k + 4) = evalLC asg p.Z * evalLC asg q.Z := by
    rw [hO4, hL4, hR4]
  have eE12 : asg.mulO (k + 5) =
      (evalLC asg p.X + evalLC asg p.Y) * (evalLC asg q.X + evalLC asg q.Y) := by
    rw [hO5, hL5, hR5]
  have eaA : asg.mulO (k + 6) = a * (evalLC asg p.X * evalLC asg q.X) := by
    rw [hO6, hL6, hR6, eA]
  have ebB : asg.mulO (k + 7) = a * (evalLC asg p.Y * evalLC asg q.Y) := by
    rw [hO7, hL7, hR7, eB]
  have eX : asg.mulO (k + 8) =
      (a * (evalLC asg p.X * evalLC asg q.X) +
         a * (evalLC asg p.Y * evalLC asg q.Y) +
         (evalLC asg p.X + evalLC asg p.Y) * (evalLC asg q.X + evalLC asg q.Y)) *
        (evalLC asg p.Z * evalLC asg q.Z - evalLC asg p.T * evalLC asg q.T * d) := by
    rw [hO8, hL8, hR8, eaA, ebB, eE12, eD, eC]
  have eY : asg.mulO (k + 9) =
      (evalLC asg p.Z * evalLC asg q.Z + evalLC asg p.T * evalLC asg q.T * d) *
        (evalLC asg p.Y * evalLC asg q.Y + evalLC asg p.X * evalLC asg q.X) := by
    rw [hO9, hL9, hR9, eD, eC, eA, eB]
  have eZ : asg.mulO (k + 10) =
      (evalLC asg p.Z * evalLC asg q.Z - evalLC asg p.T * evalLC asg q.T * d) *
        (evalLC asg p.Z * evalLC asg q.Z + evalLC asg p.T * evalLC asg q.T * d) := by
    rw [hO10, hL10, hR10, hR8, hL9, eD, eC]
  have eT : asg.mulO (k + 11) =
      (a * (evalLC asg p.X * evalLC asg q.X) +
         a * (evalLC asg p.Y * evalLC asg q.Y) +
         (evalLC asg p.X + evalLC asg p.Y) * (evalLC asg q.X + evalLC asg q.Y)) *
        (evalLC asg p.Y * evalLC asg q.Y + evalLC asg p.X * evalLC asg q.X) := by
    rw [hO11, hL11, hR11, hL8, hR9, eaA, ebB, eE12, eB, eA]
  simp only [evalPoint, addResult, addV, evalLC_lcVar, varValue,
    SonnyPoint.mk.injEq]
  rw [eX, eY, eZ, eT]
  refine ⟨by ring, by ring, by ring, by ring⟩

/-- Any assignment satisfying a conditional-select block forces the output
point to the conditional-select formulas applied to the bit value. -/
theorem condSelOps_sound [CommRing F] (bit : LinComb F)
    (p : SonnyRistrettoPointGadget F) (k : ℕ) (asg : BPAssignment F)
    (hs : Satisfies asg (condSelOps bit p k)) :
    evalPoint asg (condSelResult k) =
      condSelectV (evalLC asg bit) (evalPoint asg p) := by
  simp only [condSelOps, Satisfies_cons] at hs
  obtain ⟨⟨hL0, hR0, hO0⟩, ⟨hL1, hR1, hO1⟩, -, ⟨hL2, hR2, hO2⟩, -,
    ⟨hL3, hR3, hO3⟩, -⟩ := hs
  rw [evalLC_lcVar] at hL1 hL2 hR3
  simp only [varValue] at hL1 hL2 hR3
  have eb1 : asg.mulL (k + 1) = evalLC asg bit := by rw [hL1, hR0]
  have eb2 : asg.mulL (k + 2) = evalLC asg bit := by rw [hL2, eb1]
  have eX : asg.mulO k = evalLC asg p.X * evalLC asg bit := by rw [hO0, hL0, hR0]
  have eY : asg.mulO (k + 1) = evalLC asg bit * evalLC asg p.Y := by
    rw [hO1, eb1, hR1]
  have eZ : asg.mulO (k + 2) = evalLC asg bit * evalLC asg p.Z := by
    rw [hO2, eb2, hR2]
  have eT : asg.mulO (k + 3) = evalLC asg p.T * evalLC asg bit := by
    rw [hO3, hL3, hR3, eb2]
  simp only [evalPoint, condSelResult, condSelectV, evalLC_lcSub, evalLC_lcAdd,
    evalLC_lcVar, evalLC_lcConst, varValue, SonnyPoint.mk.injEq]
  rw [eX, eY, eZ, eT, eb1, eb2]
  refine ⟨rfl, by ring, by ring, rfl⟩


/-- Trace equation for one ladder iteration: a boolean block, a doubling
block (addition of the accumulator with itself), a conditional-select block
and an addition block, twenty-nine gates in all. -/
theorem ladder_step_spec [CommRing F] (a d : F)
    (basep : SonnyRistrettoPointGadget F) (Q : SonnyRistrettoPointGadget F)
    (s : CSState F) (v : BPVar) :
    ladder_step a d basep (Q, s) v =
      (addResult (s.numMuls + 17),
        ⟨s.numCommitted, s.numMuls + 29,
          s.ops ++ binaryOps v s.numMuls
            ++ doubleOps a d Q (s.numMuls + 1)
            ++ condSelOps (lcVar v) basep (s.numMuls + 13)
            ++ addOps a d (addResult (s.numMuls + 1))
                (condSelResult (s.numMuls + 13)) (s.numMuls + 17)⟩) := by
  simp [ladder_step, binary_constrain_gadget_spec, SonnyRistrettoPointGadget.double,
    add_spec, conditionally_select_spec, doubleOps, List.append_assoc, Nat.add_assoc]

/-- Soundness of the ladder loop: any assignment satisfying the emitted trace
satisfies the incoming trace, gives every processed bit wire a boolean value,
and forces the accumulator's final value to the corresponding fold of the
value-level doubling, selection and addition formulas. -/
theorem ladder_fold_sound {F : Type} [Field F] [DecidableEq F] (a d : F)
    (basep : SonnyRistrettoPointGadget F) (asg : BPAssignment F) :
    ∀ (l : List BPVar) (Q : SonnyRistrettoPointGadget F) (s : CSState F),
      Satisfies asg ((l.foldl (ladder_step a d basep) (Q, s)).2).ops →
      Satisfies asg s.ops
      ∧ (∀ v ∈ l, varValue asg v = 0 ∨ varValue asg v = 1)
      ∧ evalPoint asg ((l.foldl (ladder_step a d basep) (Q, s)).1) =
          l.foldl
            (fun q v => addV a d (addV a d q q)
              (condSelectV (varValue asg v) (evalPoint asg basep)))
            (evalPoint asg Q) := by
  intro l
  induction l with
  | nil =>
      intro Q s hs
      exact ⟨hs, by simp, rfl⟩
  | cons v rest ih =>
      intro Q s hs
      rw [List.foldl_cons, ladder_step_spec] at hs
      obtain ⟨hS1, hboolRest, hvalRest⟩ := ih _ _ hs
      rw [Satisfies_append, Satisfies_append, Satisfies_append,
        Satisfies_append] at hS1
      obtain ⟨⟨⟨⟨hs0, hbin⟩, hdbl⟩, hsel⟩, hadd⟩ := hS1
      have hbv : varValue asg v = 0 ∨ varValue asg v = 1 :=
        binaryOps_sound v s.numMuls asg hbin
      have h1 : evalPoint asg (addResult (s.numMuls + 1)) =
          addV a d (evalPoint asg Q) (evalPoint asg Q) :=
        addOps_sound a d Q Q (s.numMuls + 1) asg hdbl
      have h2 : evalPoint asg (condSelResult (s.numMuls + 13)) =
          condSelectV (varValue asg v) (evalPoint asg basep) := by
        have h2a := condSelOps_sound (lcVar v) basep (s.numMuls + 13) asg hsel
        rwa [evalLC_lcVar] at h2a
      have h3 : evalPoint asg (addResult (s.numMuls + 17)) =
          addV a d (addV a d (evalPoint asg Q) (evalPoint asg Q))
            (condSelectV (varValue asg v) (evalPoint asg basep)) := by
        rw [addOps_sound a d (addResult (s.numMuls + 1))
          (condSelResult (s.numMuls + 13)) (s.numMuls + 17) asg hadd, h1, h2]
      refine ⟨hs0, ?_, ?_⟩
      · intro u hu
        rcases List.mem_cons.mp hu with h | h
        · rw [h]
          exact hbv
        · exact hboolRest u h
      · rw [List.foldl_cons, ladder_step_spec, List.foldl_cons]
        rw [hvalRest, h3]

/-- The conditional-select formulas at bit one return the point itself. -/
theorem condSelectV_one [CommRing F] (p : SonnyPoint F) :
    condSelectV (1 : F) p = p := by
  obtain ⟨X, Y, Z, T⟩ := p
  simp [condSelectV]

/-- The conditional-select formulas at bit zero return the identity point. -/
theorem condSelectV_zero [CommRing F] (p : SonnyPoint F) :
    condSelectV (0 : F) p = ⟨0, 1, 1, 0⟩ := by
  simp [condSelectV]

/-- The value-level double-and-add recursion over boolean bit values computes
the scalar multiple under any group interpretation of the addition formulas:
if a map into an additive commutative monoid turns `addV` into addition on a
set closed under the recursion, the result of `scalarMulV` maps to
`natOfBits bits` times the image of the base point. -/
theorem scalarMulV_hom {F : Type} [CommRing F] {G : Type} [AddCommMonoid G]
    (a d : F) (base : SonnyPoint F) (f : SonnyPoint F → G)
    (S : Set (SonnyPoint F)) (hbS : base ∈ S)
    (hidS : (⟨0, 1, 1, 0⟩ : SonnyPoint F) ∈ S)
    (hSadd : ∀ p q, p ∈ S → q ∈ S → addV a d p q ∈ S)
    (hfadd : ∀ p q, p ∈ S → q ∈ S → f (addV a d p q) = f p + f q)
    (hfid : f ⟨0, 1, 1, 0⟩ = 0) (bits : List Bool) :
    scalarMulV a d base (bits.map fun b => cond b 1 0) ∈ S
    ∧ f (scalarMulV a d base (bits.map fun b => cond b 1 0)) =
        natOfBits bits • f base := by
  unfold scalarMulV
  rw [← List.map_reverse, List.foldl_map, List.foldl_reverse]
  induction bits with
  | nil => simp [natOfBits, hidS, hfid]
  | cons b bs ih =>
      obtain ⟨ihS, ihf⟩ := ih
      rw [List.foldr_cons]
      have hselS : condSelectV (cond b 1 0) base ∈ S := by
        cases b
        · rw [cond_false, condSelectV_zero]
          exact hidS
        · rw [cond_true, condSelectV_one]
          exact hbS
      have hdS : addV a d (bs.foldr (fun x y =>
          addV a d (addV a d y y) (condSelectV (cond x 1 0) base)) ⟨0, 1, 1, 0⟩)
          (bs.foldr (fun x y =>
          addV a d (addV a d y y) (condSelectV (cond x 1 0) base)) ⟨0, 1, 1, 0⟩) ∈ S :=
        hSadd _ _ ihS ihS
      refine ⟨hSadd _ _ hdS hselS, ?_⟩
      rw [hfadd _ _ hdS hselS, hfadd _ _ ihS ihS, ihf]
      cases b
      · rw [cond_false, condSelectV_zero, hfid, natOfBits]
        simp [add_nsmul, two_mul]
      · rw [cond_true, condSelectV_one, natOfBits]
        simp [add_nsmul, two_mul, one_nsmul]
        abel


/-- **C4.** The scalar-multiplication ladder of `sk_knowledge_gadget` starts
with the accumulator as the constant identity point `(0, 1, 1, 0)`, reverses
the bit-wire vector so the most-significant bit is processed first, and per
bit emits the boolean-constraint, doubling, conditional-select and addition
circuits (definitionally, via `ladder_step`).  For any assignment satisfying
the emitted constraint system: every bit wire carries `0` or `1`; the
accumulator's final value is forced to the double-and-add fold `scalarMulV`
of the gadget's own addition and selection formulas over those bits; and
under every interpretation of the addition formulas as the addition of a
commutative group (on a set of points closed under the recursion) the final
value maps to `natOfBits bits` times the base point — i.e. after the last
bit the accumulator equals `scalar * base_point`. -/
theorem sk_knowledge_ladder_correct {F : Type} [Field F] [DecidableEq F]
    (a d : F) (basep : SonnyRistrettoPointGadget F) (sk : List BPVar)
    (s : CSState F) (asg : BPAssignment F)
    (hs : Satisfies asg ((sk_knowledge_ladder a d basep sk s).2).ops) :
    (∀ v ∈ sk, varValue asg v = 0 ∨ varValue asg v = 1)
    ∧ evalPoint asg (sk_knowledge_ladder a d basep sk s).1 =
        scalarMulV a d (evalPoint asg basep) (sk.map (varValue asg))
    ∧ (∀ (G : Type) [AddCommMonoid G] (f : SonnyPoint F → G)
        (S : Set (SonnyPoint F)),
        evalPoint asg basep ∈ S → (⟨0, 1, 1, 0⟩ : SonnyPoint F) ∈ S →
        (∀ p q, p ∈ S → q ∈ S → addV a d p q ∈ S) →
        (∀ p q, p ∈ S → q ∈ S → f (addV a d p q) = f p + f q) →
        f ⟨0, 1, 1, 0⟩ = 0 →
        ∀ bits : List Bool,
          sk.map (varValue asg) = bits.map (fun b => cond b 1 0) →
          f (evalPoint asg (sk_knowledge_ladder a d basep sk s).1) =
            natOfBits bits • f (evalPoint asg basep)) := by
  unfold sk_knowledge_ladder at hs ⊢
  obtain ⟨-, hbool, hval⟩ := ladder_fold_sound a d basep asg sk.reverse _ s hs
  have hQ0 : evalPoint asg
      (⟨lcConst 0, lcConst 1, lcConst 1, lcConst 0⟩ : SonnyRistrettoPointGadget F) =
      ⟨0, 1, 1, 0⟩ := by
    simp [evalPoint, evalLC_lcConst]
  have hbool2 : ∀ v ∈ sk, varValue asg v = 0 ∨ varValue asg v = 1 :=
    fun v hv => hbool v (List.mem_reverse.mpr hv)
  have hval2 : evalPoint asg
      ((sk.reverse.foldl (ladder_step a d basep)
        (⟨lcConst 0, lcConst 1, lcConst 1, lcConst 0⟩, s)).1) =
      scalarMulV a d (evalPoint asg basep) (sk.map (varValue asg)) := by
    rw [hval, hQ0, scalarMulV, ← List.map_reverse, List.foldl_map]
  refine ⟨hbool2, hval2, ?_⟩
  intro G instG f S hbS hidS hSadd hfadd hfid bits hbits
  rw [hval2, hbits]
  exact (scalarMulV_hom a d (evalPoint asg basep) f S hbS hidS hSadd hfadd
    hfid bits).2

/-- Witness for the C4 theorem: one full ladder iteration over the crate's
field (bit wire set to `1`, base point `(1, 2, 1, 1)` on committed wires,
`a = -1`, `d = 2`), whose twenty-nine-gate satisfying assignment is verified
by evaluation and at which the theorem applies. -/
theorem sk_knowledge_ladder_correct_witness :
    Satisfies skLadderAsg ((sk_knowledge_ladder (-1 : ZMod 13) 2 skBaseGadget
        [BPVar.committed 0] CSState.init).2).ops
    ∧ ((∀ v ∈ [BPVar.committed 0],
          varValue skLadderAsg v = 0 ∨ varValue skLadderAsg v = 1)
      ∧ evalPoint skLadderAsg (sk_knowledge_ladder (-1 : ZMod 13) 2 skBaseGadget
            [BPVar.committed 0] CSState.init).1 =
          scalarMulV (-1 : ZMod 13) 2 (evalPoint skLadderAsg skBaseGadget)
            ([BPVar.committed 0].map (varValue skLadderAsg))
      ∧ (∀ (G : Type) [AddCommMonoid G] (f : SonnyPoint (ZMod 13) → G)
          (S : Set (SonnyPoint (ZMod 13))),
          evalPoint skLadderAsg skBaseGadget ∈ S →
          (⟨0, 1, 1, 0⟩ : SonnyPoint (ZMod 13)) ∈ S →
          (∀ p q, p ∈ S → q ∈ S → addV (-1 : ZMod 13) 2 p q ∈ S) →
          (∀ p q, p ∈ S → q ∈ S → f (addV (-1 : ZMod 13) 2 p q) = f p + f q) →
          f ⟨0, 1, 1, 0⟩ = 0 →
          ∀ bits : List Bool,
            [BPVar.committed 0].map (varValue skLadderAsg) =
              bits.map (fun b => cond b 1 0) →
            f (evalPoint skLadderAsg (sk_knowledge_ladder (-1 : ZMod 13) 2
                skBaseGadget [BPVar.committed 0] CSState.init).1) =
              natOfBits bits • f (evalPoint skLadderAsg skBaseGadget))) :=
  ⟨by decide, sk_knowledge_ladder_correct (-1 : ZMod 13) 2 skBaseGadget
      [BPVar.committed 0] CSState.init skLadderAsg (by decide)⟩

end BPG
